import Mathlib

/-!
Host-brokered stream (`JsFile`) of `ssh_client`

A shallow embedding of `src/ssh_client/src/js_file.cc`: the stream record, the
driver-context callbacks (`OnOpen`, `OnRead`, `OnWriteAcknowledge`, `OnClose`,
`OnReadReady`, `Write`), the calling-thread operations (`read`, `write`,
`close`, `fcntl`, the readiness predicates) and the flow-control helper
`PostWriteTask`; followed by the null stream of `dev_null.cc`, the listening
stream of `tcp_server_socket.cc` and `connect` of `wassh-libc-sup`.

Conventions.
* A `char` is an `Int` (`CChar`); `'\n'` is `10`, `'\r'` is `13`.
* `uint64_t` counters are `Nat` with explicit `% U64`; `size_t` is the 32-bit
  type of the Native Client targets the file is written for
  (`ppapi`, `nacl_abi_stat`), a `Nat` with explicit `% SIZE_MOD`.
* `assert(e)` aborts unless the build defines `NDEBUG`; an abort is `none`.
* What the host decides (the write window, whether `out_->Write` accepts,
  whether the caller is the main Pepper thread) is an argument.
* The calls `::write(fd_, ...)` made by the line discipline and the calls
  `out_->Write(fd_, ...)` made by the flush are returned as logs.
* A `cond().wait` releases the mutex: every wakeup applies the next action of
  the environment (any function on the state) before the loop re-checks its
  predicate; when the environment has no further action the call stays
  suspended (`none`).
-/

namespace SshClient

/-- A value of the C type `char`. -/
abbrev CChar := Int

/-- The character `'\r'`. -/
def CR : CChar := 13

/-- The character `'\n'`. -/
def NL : CChar := 10

/-- Modulus of `uint64_t` arithmetic, `2 ^ 64`. -/
def U64 : Nat := 18446744073709551616

/-- Modulus of `size_t` arithmetic on the ILP32 Native Client targets, `2 ^ 32`. -/
def SIZE_MOD : Nat := 4294967296

/-- `a + b` in `uint64_t`. -/
def u64_add (a b : Nat) : Nat := (a + b) % U64

/-- `a - b` in `uint64_t`. -/
def u64_sub (a b : Nat) : Nat := (a % U64 + (U64 - b % U64)) % U64

/-! ### Constants of `<termios.h>`, `<fcntl.h>` and `<errno.h>` -/

def IGNCR : Nat := 0o200
def ICRNL : Nat := 0o400
def INLCR : Nat := 0o100
def OPOST : Nat := 0o1
def ONLCR : Nat := 0o4
def ICANON : Nat := 0o2
def ECHO : Nat := 0o10
def ECHOE : Nat := 0o20
def ECHONL : Nat := 0o100
def O_NONBLOCK : Nat := 0o4000
def EIO : Int := 5
def EAGAIN : Int := 11

/-- The C test `(w & m)` used as a condition. -/
def testFlag (w m : Nat) : Bool := (w &&& m) != 0

/-- The fields of `termios` that `js_file.cc` reads; `c_cc_VERASE` is
`c_cc[VERASE]`, a `cc_t` (unsigned). -/
structure Termios where
  c_iflag : Nat
  c_oflag : Nat
  c_lflag : Nat
  c_cc_VERASE : Nat
deriving DecidableEq, Repr

/-- The mutable fields of a `JsFile`. `is_socket` records that the dynamic type
is `JsSocket` (which overrides `isatty` and `is_read_ready`); `tio_` is the
static member shared by every stream. -/
structure JsFile where
  is_socket : Bool
  fd_ : Int
  oflag_ : Nat
  out_task_sent_ : Bool
  is_open_ : Bool
  is_atty_ : Bool
  is_read_ready_ : Bool
  write_sent_ : Nat
  write_acknowledged_ : Nat
  on_read_call_count_ : Nat
  in_buf_ : List CChar
  out_buf_ : List CChar
  tio_ : Termios
deriving DecidableEq, Repr

/-- What the surroundings of a stream fix: the value `out_->GetWriteWindow()`
returns and whether assertions are compiled out. -/
structure Env where
  window : Nat
  ndebug : Bool
deriving DecidableEq, Repr

/-- A wakeup of a `cond().wait`: what the other contexts did to the stream
while the mutex was released. -/
abbrev Action := JsFile → JsFile

/-- The buffers handed to `::write(fd_, ...)` or to `out_->Write(fd_, ...)`,
one entry per call. -/
abbrev Log := List (List CChar)

namespace JsFile

/-- Constructor `JsFile::JsFile(fd, oflag, out)`; `tio` is the current value of
the static `tio_`. -/
def init (fd : Int) (oflag : Nat) (tio : Termios) : JsFile :=
  { is_socket := false, fd_ := fd, oflag_ := oflag, out_task_sent_ := false,
    is_open_ := false, is_atty_ := false, is_read_ready_ := false,
    write_sent_ := 0, write_acknowledged_ := 0, on_read_call_count_ := 0,
    in_buf_ := [], out_buf_ := [], tio_ := tio }

/-- Modelled from the spec: the accessor `is_open()` of the missing header
`js_file.h`; the stream is open from the driver's open confirmation to its
close confirmation, which is the field `is_open_`. -/
def is_open (s : JsFile) : Bool := s.is_open_

/-- Modelled from the spec: the accessor `is_block()` of the missing header
`js_file.h`; the open-flags say blocking unless the non-blocking flag is set
(the same accessor is spelled out in `tcp_socket.h`). -/
def is_block (s : JsFile) : Bool := !testFlag s.oflag_ O_NONBLOCK

/-- The virtual `isatty()`: `JsFile::isatty` returns `is_atty_`,
`JsSocket::isatty` returns `false`. -/
def isatty (s : JsFile) : Bool := if s.is_socket then false else s.is_atty_

/-- The callback `JsFile::OnOpen(success, is_atty)`. -/
def OnOpen (success is_atty : Bool) (s : JsFile) : JsFile :=
  let s1 := { s with is_open_ := true, is_atty_ := is_atty }
  if !success then { s1 with fd_ := -1 } else s1

/-- The callback `JsFile::OnClose()`. -/
def OnClose (s : JsFile) : JsFile := { s with is_open_ := false }

/-- The callback `JsFile::OnReadReady(is_read_ready)`. -/
def OnReadReady (b : Bool) (s : JsFile) : JsFile := { s with is_read_ready_ := b }

/-- The transformation of an arriving character by the input flags in
`JsFile::OnRead`; `none` is the `continue` that drops an ignored `'\r'`. -/
def inputXlate (tio : Termios) (c : CChar) : Option CChar :=
  if c = CR then
    if testFlag tio.c_iflag IGNCR then none
    else if testFlag tio.c_iflag ICRNL then some NL
    else some c
  else if c = NL then
    if testFlag tio.c_iflag INLCR then some CR else some c
  else some c

/-- One iteration of the `for` loop of `JsFile::OnRead` on a terminal, for the
arriving character `c0`; the second component is the log of `::write(fd_, ...)`
calls. -/
def OnRead_char (st : JsFile × Log) (c0 : CChar) : JsFile × Log :=
  let s := st.1
  let echo := st.2
  match inputXlate s.tio_ c0 with
  | none => st
  | some c =>
    if testFlag s.tio_.c_lflag ICANON then
      if testFlag s.tio_.c_lflag ECHOE && decide (c = (s.tio_.c_cc_VERASE : Int)) then
        if !s.in_buf_.isEmpty && s.in_buf_.getLast? != some NL then
          ({ s with in_buf_ := s.in_buf_.dropLast },
            if testFlag s.tio_.c_lflag ECHO then echo ++ [[8, 32, 8]] else echo)
        else st
      else if testFlag s.tio_.c_lflag ECHO ||
          (testFlag s.tio_.c_lflag ECHONL && decide (c = NL)) then
        ({ s with in_buf_ := s.in_buf_ ++ [c] }, echo ++ [[c]])
      else ({ s with in_buf_ := s.in_buf_ ++ [c] }, echo)
    else if testFlag s.tio_.c_lflag ECHO then
      ({ s with in_buf_ := s.in_buf_ ++ [c] }, echo ++ [[c]])
    else ({ s with in_buf_ := s.in_buf_ ++ [c] }, echo)

/-- The callback `JsFile::OnRead(buf, size)`, `buf` being the `size` delivered
characters. Returns the new state and the `::write(fd_, ...)` calls made. -/
def OnRead (buf : List CChar) (s : JsFile) : JsFile × Log :=
  let r : JsFile × Log :=
    if s.isatty then buf.foldl OnRead_char (s, [])
    else ({ s with in_buf_ := s.in_buf_ ++ buf }, [])
  ({ r.1 with on_read_call_count_ := u64_add r.1.on_read_call_count_ 1 }, r.2)

/-- The guard of `JsFile::PostWriteTask`: no flush task pending, output queued
and `(write_sent_ - write_acknowledged_) < out_->GetWriteWindow()`. -/
def wantsWrite (env : Env) (s : JsFile) : Bool :=
  !s.out_task_sent_ && !s.out_buf_.isEmpty &&
    decide (u64_sub s.write_sent_ s.write_acknowledged_ < env.window)

/-- The call `PostWriteTask(true)`: it can only schedule `JsFile::Write`. -/
def PostWriteTask_post (env : Env) (s : JsFile) : JsFile :=
  if wantsWrite env s then { s with out_task_sent_ := true } else s

/-- The number of bytes `JsFile::Write` transmits:
`std::min(size_t(write_acknowledged_ + window - write_sent_), out_buf_.size())`. -/
def writeCount (env : Env) (s : JsFile) : Nat :=
  min (u64_sub (u64_add s.write_acknowledged_ env.window) s.write_sent_ % SIZE_MOD)
    s.out_buf_.length

/-- The flush `JsFile::Write(result)`; `hostOk` is what `out_->Write` returns.
The log holds the buffer handed to `out_->Write`, if it was called. -/
def Write (env : Env) (hostOk : Bool) (s : JsFile) : Option (JsFile × Log) :=
  let s1 := { s with out_task_sent_ := false }
  let count := writeCount env s1
  if count = 0 then some (s1, [])
  else
    let buf := s1.out_buf_.take count
    if hostOk then
      some ({ s1 with write_sent_ := u64_add s1.write_sent_ count,
                      out_buf_ := s1.out_buf_.drop count }, [buf])
    else if env.ndebug then some (PostWriteTask_post env s1, [buf])
    else none

/-- The helper `JsFile::PostWriteTask(always_post)`; `isMain` is
`IsMainThread()`, `hostOk` the answer of the host if the flush runs directly. -/
def PostWriteTask (env : Env) (always_post isMain hostOk : Bool) (s : JsFile) :
    Option (JsFile × Log) :=
  if wantsWrite env s then
    if always_post || !isMain then some ({ s with out_task_sent_ := true }, [])
    else Write env hostOk s
  else some (s, [])

/-- The callback `JsFile::OnWriteAcknowledge(count)`. -/
def OnWriteAcknowledge (env : Env) (count : Nat) (isMain hostOk : Bool) (s : JsFile) :
    Option (JsFile × Log) :=
  if env.ndebug || decide (s.write_acknowledged_ ≤ s.write_sent_) then
    PostWriteTask env false isMain hostOk { s with write_acknowledged_ := count }
  else none

/-- The loop of `JsFile::write` that inserts `'\r'` before every `'\n'` from
index `i` on; the first argument bounds the number of iterations and `none`
means the bound was reached with the loop condition still true. -/
def nlcrLoop : Nat → Nat → List CChar → Option (List CChar)
  | 0, i, b => if i < b.length then none else some b
  | fuel + 1, i, b =>
    if i < b.length then
      if b.getD i 0 = NL then nlcrLoop fuel (i + 2) (b.take i ++ CR :: b.drop i)
      else nlcrLoop fuel (i + 1) b
    else some b

/-- What `JsFile::write` hands back: the returned error number, `*nwrote` when
it was assigned, and the stream. -/
structure WriteResult where
  ret : Int
  nwrote : Option Nat
  state : JsFile
deriving DecidableEq, Repr

/-- The operation `JsFile::write(buf, count, nwrote)`, `buf` being the `count`
characters to write. -/
def write (env : Env) (buf : List CChar) (s : JsFile) : Option WriteResult :=
  if !s.is_open then some { ret := EIO, nwrote := none, state := s }
  else
    let count := buf.length
    let s1 := { s with out_buf_ := s.out_buf_ ++ buf }
    let out2 : Option (List CChar) :=
      if s1.isatty && testFlag s1.tio_.c_oflag OPOST && testFlag s1.tio_.c_oflag ONLCR then
        nlcrLoop count (s1.out_buf_.length - count) s1.out_buf_
      else some s1.out_buf_
    match out2 with
    | none => none
    | some o =>
      some { ret := 0, nwrote := some count,
             state := PostWriteTask_post env { s1 with out_buf_ := o } }

/-- A wait loop `while (cond) sys->cond().wait(sys->mutex());`. -/
def waitWhile (cond : JsFile → Bool) : List Action → JsFile → Option (JsFile × List Action)
  | [], s => if cond s then none else some (s, [])
  | a :: rest, s => if cond s then waitWhile cond rest (a s) else some (s, a :: rest)

/-- The `while (true)` loop of `JsFile::read` that waits for a whole line; the
last argument collects the sizes requested from the host through
`JsFile::Read`. The first argument bounds the number of iterations. -/
def canonWait : Nat → List Action → JsFile → List Nat → Option (JsFile × List Action × List Nat)
  | 0, _, _, _ => none
  | fuel + 1, acts, s, reqs =>
    if !s.is_open then some (s, acts, reqs)
    else if decide (NL ∈ s.in_buf_) then some (s, acts, reqs)
    else
      match waitWhile (fun t => t.is_open && !t.is_read_ready_) acts s with
      | none => none
      | some (s1, acts1) =>
        let old := s1.on_read_call_count_
        match waitWhile (fun t => t.is_open && t.on_read_call_count_ == old) acts1 s1 with
        | none => none
        | some (s2, acts2) => canonWait fuel acts2 s2 (reqs ++ [1])

/-- The copy loop of `JsFile::read`: moves up to `n` characters from the front
of the input buffer; returns the characters copied and the remaining buffer. -/
def drain : Nat → List CChar → List CChar × List CChar
  | 0, b => ([], b)
  | _ + 1, [] => ([], [])
  | n + 1, c :: b => (c :: (drain n b).1, (drain n b).2)

/-- What `JsFile::read` hands back: the returned error number, `*nread`, the
characters stored in `buf`, the stream, and the sizes requested from the host
through `JsFile::Read`. -/
structure ReadResult where
  ret : Int
  nread : Nat
  data : List CChar
  state : JsFile
  requests : List Nat
deriving DecidableEq, Repr

/-- The wait phase of `JsFile::read` (everything before `*nread = 0`). -/
def readWait (count : Nat) (acts : List Action) (s : JsFile) :
    Option (JsFile × List Action × List Nat) :=
  let reqs : List Nat := if s.is_open && s.in_buf_.isEmpty then [count] else []
  let w : Option (JsFile × List Action) :=
    if s.is_block then waitWhile (fun t => t.is_open && t.in_buf_.isEmpty) acts s
    else if s.is_read_ready_ then
      waitWhile (fun t => t.is_open && t.in_buf_.isEmpty && t.is_read_ready_) acts s
    else some (s, acts)
  match w with
  | none => none
  | some (s1, acts1) =>
    if s1.isatty && testFlag s1.tio_.c_lflag ICANON then
      canonWait (acts1.length + 2) acts1 s1 reqs
    else some (s1, acts1, reqs)

/-- The operation `JsFile::read(buf, count, nread)`; `acts` are the wakeups the
environment supplies while the call waits. -/
def read (count : Nat) (acts : List Action) (s : JsFile) : Option ReadResult :=
  match readWait count acts s with
  | none => none
  | some (s1, _, reqs) =>
    let d := drain count s1.in_buf_
    let s2 := { s1 with in_buf_ := d.2 }
    if d.1.length = 0 && !s2.is_block && s2.is_open then
      some { ret := EAGAIN, nread := SIZE_MOD - 1, data := d.1, state := s2, requests := reqs }
    else
      some { ret := 0, nread := d.1.length, data := d.1, state := s2, requests := reqs }

/-- The text a write queues when NL-to-CRNL translation applies: the written
characters with every `'\n'` replaced by `"\r\n"`. -/
def crnl : List CChar → List CChar
  | [] => []
  | c :: rest => if c = NL then CR :: NL :: crnl rest else c :: crnl rest

/-- Whether `JsFile::write` translates: the stream is a terminal and both
`OPOST` and `ONLCR` are set. -/
def nlcrOn (s : JsFile) : Bool :=
  s.isatty && testFlag s.tio_.c_oflag OPOST && testFlag s.tio_.c_oflag ONLCR

/-- The in-flight byte count `write_sent_ - write_acknowledged_`, as the code
computes it. -/
def inFlight (s : JsFile) : Nat := u64_sub s.write_sent_ s.write_acknowledged_

end JsFile

/-- What can happen to the write side of a stream: the driver confirms that
the stream is open or closed, the calling thread writes, the scheduled flush
`JsFile::Write` runs, the driver acknowledges a byte count. -/
inductive Event where
  | onOpen (success is_atty : Bool)
  | onClose
  | write (buf : List CChar)
  | flush (hostOk : Bool)
  | onAck (count : Nat) (isMain hostOk : Bool)
deriving DecidableEq, Repr

/-- A stream together with two histories: every byte the host accepted through
`out_->Write`, and every byte a successful `write` queued. -/
structure Trace where
  state : JsFile
  transmitted : List CChar
  enqueued : List CChar
deriving DecidableEq, Repr

/-- The bytes of a log, in call order. -/
def logBytes : Log → List CChar
  | [] => []
  | b :: rest => b ++ logBytes rest

/-- The acknowledgements a well-behaved host sends: the count does not go back
and does not exceed `write_sent_`. -/
def Event.admissible (e : Event) (s : JsFile) : Bool :=
  match e with
  | .onAck count _ _ => decide (s.write_acknowledged_ ≤ count) && decide (count ≤ s.write_sent_)
  | _ => true

/-- One event applied to a stream and its histories; `none` when an assertion
aborts. -/
def step (env : Env) (e : Event) (t : Trace) : Option Trace :=
  match e with
  | .onOpen success is_atty => some { t with state := t.state.OnOpen success is_atty }
  | .onClose => some { t with state := t.state.OnClose }
  | .write buf =>
    match t.state.write env buf with
    | none => none
    | some r =>
      some { t with state := r.state,
                    enqueued := if r.ret = 0 then
                        t.enqueued ++ (if t.state.nlcrOn then JsFile.crnl buf else buf)
                      else t.enqueued }
  | .flush hostOk =>
    match t.state.Write env hostOk with
    | none => none
    | some (s, log) =>
      some { t with state := s,
                    transmitted := if hostOk then t.transmitted ++ logBytes log
                      else t.transmitted }
  | .onAck count isMain hostOk =>
    match t.state.OnWriteAcknowledge env count isMain hostOk with
    | none => none
    | some (s, log) =>
      some { t with state := s,
                    transmitted := if hostOk then t.transmitted ++ logBytes log
                      else t.transmitted }

/-- A sequence of admissible events applied in order; `none` when an event is
not admissible or an assertion aborts. -/
def exec (env : Env) : List Event → Trace → Option Trace
  | [], t => some t
  | e :: rest, t =>
    if e.admissible t.state then
      match step env e t with
      | none => none
      | some t1 => exec env rest t1
    else none

/-- A stream with empty histories. -/
def Trace.start (s : JsFile) : Trace := { state := s, transmitted := [], enqueued := [] }

/-- The write-window invariant: both counters are `uint64_t` values and the
in-flight count is within the window. -/
def WindowInv (env : Env) (s : JsFile) : Prop :=
  s.write_sent_ < U64 ∧ s.write_acknowledged_ < U64 ∧ s.inFlight ≤ env.window

/-! ### Further constants of `<termios.h>` used by `InitTerminal` -/

def IXON : Nat := 0o2000
def IXOFF : Nat := 0o10000
def IUTF8 : Nat := 0o40000
def ISIG : Nat := 0o1
def ECHOK : Nat := 0o40
def ECHOCTL : Nat := 0o1000
def ECHOKE : Nat := 0o4000
def IEXTEN : Nat := 0o100000

/-- The values `JsFile::InitTerminal` stores in `tio_`, for the fields modelled. -/
def JsFile.InitTerminal : Termios :=
  { c_iflag := ICRNL ||| IXON ||| IXOFF ||| IUTF8,
    c_oflag := OPOST ||| ONLCR,
    c_lflag := ISIG ||| ICANON ||| ECHO ||| ECHOE ||| ECHOK ||| ECHOCTL ||| ECHOKE ||| IEXTEN,
    c_cc_VERASE := 127 }

/-! ### Concrete streams used in the examples -/

/-- A host with a window of four bytes, assertions enabled. -/
def demoEnv : Env := { window := 4, ndebug := false }

/-- A freshly constructed stream on descriptor 3. -/
def demoFresh : JsFile := JsFile.init 3 0 JsFile.InitTerminal

/-- An open pipe: six bytes written, two flushes, one acknowledgement. -/
def demoEvents : List Event :=
  [.onOpen true false, .write [104, 101, 108, 108, 111, 10], .flush true, .onAck 3 true true,
   .write [33], .flush true]

/-- The stream and histories `demoEvents` lead to. -/
def demoFinal : Trace :=
  { state := { demoFresh with is_open_ := true, write_sent_ := 7, write_acknowledged_ := 3 },
    transmitted := [104, 101, 108, 108, 111, 10, 33],
    enqueued := [104, 101, 108, 108, 111, 10, 33] }

/-- An open terminal with the settings of `InitTerminal` and a queued `'\n'`. -/
def demoTty : JsFile :=
  { demoFresh with is_open_ := true, is_atty_ := true, out_buf_ := [10] }

/-- An open pipe in non-blocking mode with nothing buffered. -/
def demoNonblock : JsFile := { demoFresh with is_open_ := true, oflag_ := O_NONBLOCK }

/-- A closed pipe in non-blocking mode with nothing buffered. -/
def demoClosedNonblock : JsFile := { demoFresh with oflag_ := O_NONBLOCK }

/-- An open terminal with the settings of `InitTerminal` and `"ab"` buffered
as input. -/
def demoTtyIn : JsFile :=
  { demoFresh with is_open_ := true, is_atty_ := true, in_buf_ := [97, 98] }

/-- The same terminal in canonical mode with `ECHOE` set and `ECHO` clear. -/
def demoTtyNoEcho : JsFile :=
  { demoTtyIn with tio_ := { JsFile.InitTerminal with c_lflag := ICANON ||| ECHOE } }

/-- The same terminal with the settings of `InitTerminal` (`ICRNL` set) and
`'\r'` as erase character. -/
def demoTtyEraseCR : JsFile :=
  { demoTtyIn with tio_ := { JsFile.InitTerminal with c_cc_VERASE := 13 } }

/-- The same terminal in canonical mode with `ECHOE` and `ECHO` clear. -/
def demoTtyNoEchoE : JsFile :=
  { demoTtyIn with tio_ := { JsFile.InitTerminal with c_lflag := ICANON } }

/-- Whether the loop body of `JsFile::OnRead` handles the translated character
`c` as an erase: `ICANON` and `ECHOE` are set and `c == tio_.c_cc[VERASE]`. -/
def JsFile.erases (tio : Termios) (c : CChar) : Bool :=
  testFlag tio.c_lflag ICANON && testFlag tio.c_lflag ECHOE &&
    decide (c = (tio.c_cc_VERASE : Int))

/-- The echo rule in the words of the specification: a character is echoed if
and only if `ECHO` is set, or `ICANON` and `ECHONL` are set and the character
is `'\n'`. -/
def JsFile.echoRule (tio : Termios) (c : CChar) : Bool :=
  testFlag tio.c_lflag ECHO ||
    (testFlag tio.c_lflag ICANON && testFlag tio.c_lflag ECHONL && decide (c = NL))

/-- The example terminal with the settings of `InitTerminal` and `'\n'` as
erase character. -/
def demoTtyEraseNL : JsFile :=
  { demoTtyIn with tio_ := { JsFile.InitTerminal with c_cc_VERASE := 10 } }

/-- The example terminal in raw mode: no input flag and no local flag set. -/
def demoTtyRaw : JsFile :=
  { demoTtyIn with tio_ := { JsFile.InitTerminal with c_iflag := 0, c_lflag := 0 } }

/-- What the input side of a stream sees: the driver delivers bytes through
`JsFile::OnRead`, the calling thread reads up to `count` bytes. -/
inductive InEvent where
  | deliver (d : List CChar)
  | read (count : Nat)
deriving DecidableEq, Repr

/-- A stream together with two histories: every byte delivered by `OnRead` and
every byte handed out by `read`. -/
structure InTrace where
  state : JsFile
  delivered : List CChar
  returned : List CChar
deriving DecidableEq, Repr

/-- One input event; a `read` runs without any wakeup from the environment, so
it is `none` when it would have to wait. -/
def inStep (e : InEvent) (t : InTrace) : Option InTrace :=
  match e with
  | .deliver d =>
    some { t with state := (t.state.OnRead d).1, delivered := t.delivered ++ d }
  | .read count =>
    match JsFile.read count [] t.state with
    | none => none
    | some r => some { t with state := r.state, returned := t.returned ++ r.data }

/-- A sequence of input events applied in order. -/
def inExec : List InEvent → InTrace → Option InTrace
  | [], t => some t
  | e :: rest, t =>
    match inStep e t with
    | none => none
    | some t1 => inExec rest t1

/-- A stream with empty input histories. -/
def InTrace.start (s : JsFile) : InTrace := { state := s, delivered := [], returned := [] }

/-- Two deliveries followed by two reads. -/
def demoPipeEvents : List InEvent :=
  [.deliver [104, 105], .deliver [33, 10], .read 3, .read 5]

/-! ### Further operations of `JsFile` -/

def F_GETFL : Int := 3
def F_SETFL : Int := 4

/-- The virtual `is_read_ready()`: `JsFile::is_read_ready` returns
`is_read_ready_ || !in_buf_.empty()`, `JsSocket::is_read_ready` returns
`!in_buf_.empty()`. The function assigns no field. -/
def JsFile.is_read_ready (s : JsFile) : Bool :=
  if s.is_socket then !s.in_buf_.isEmpty else s.is_read_ready_ || !s.in_buf_.isEmpty

/-- The predicate `JsFile::is_write_ready()`: `not_acknowledged` is the 64-bit
difference stored in a `size_t`, the sum is a `size_t` sum. The function
assigns no field. -/
def JsFile.is_write_ready (env : Env) (s : JsFile) : Bool :=
  decide ((u64_sub s.write_sent_ s.write_acknowledged_ % SIZE_MOD +
    s.out_buf_.length % SIZE_MOD) % SIZE_MOD < env.window)

/-- The operation `JsFile::fcntl(cmd, ap)`; `arg` is the `long` that `va_arg`
reads for `F_SETFL`. Returns the result and the stream. -/
def JsFile.fcntl (cmd : Int) (arg : Nat) (s : JsFile) : Int × JsFile :=
  if cmd = F_GETFL then ((s.oflag_ : Int), s)
  else if cmd = F_SETFL then (0, { s with oflag_ := arg })
  else (-1, s)

/-- The operation `JsFile::close()`; `acts` are the wakeups the environment
supplies while the call waits. Returns the stream and the unused wakeups;
`none` when the assertion aborts or the call stays suspended. -/
def JsFile.close (env : Env) (acts : List Action) (s : JsFile) :
    Option (JsFile × List Action) :=
  if s.is_open then
    if env.ndebug || decide (3 ≤ s.fd_) then
      match waitWhile (fun t => t.out_task_sent_) acts s with
      | none => none
      | some (s1, acts1) =>
        match waitWhile (fun t => t.is_open_) acts1 s1 with
        | none => none
        | some (s2, acts2) => some ({ s2 with fd_ := -1 }, acts2)
    else none
  else some (s, acts)

/-! ### The null stream of `dev_null.cc` -/

/-- The fields of a `DevNull`. -/
structure DevNull where
  fd_ : Int
  oflag_ : Nat
  ref_ : Nat
deriving DecidableEq, Repr

namespace DevNull

/-- Constructor `DevNull::DevNull(fd, oflag)`. -/
def init (fd : Int) (oflag : Nat) : DevNull := { fd_ := fd, oflag_ := oflag, ref_ := 1 }

/-- The operation `DevNull::close()`. -/
def close (s : DevNull) : DevNull := { s with fd_ := 0 }

/-- The operation `DevNull::read(buf, count, nread)`: the returned value, `*nread`
and the stream. -/
def read (_count : Nat) (s : DevNull) : Int × Nat × DevNull := (0, 0, s)

/-- The operation `DevNull::write(buf, count, nwrote)`, `buf` being the `count`
characters to write: the returned value, `*nwrote` and the stream. -/
def write (buf : List CChar) (s : DevNull) : Int × Nat × DevNull := (0, buf.length, s)

/-- The operation `DevNull::fcntl(cmd, ap)`. -/
def fcntl (cmd : Int) (arg : Nat) (s : DevNull) : Int × DevNull :=
  if cmd = F_GETFL then ((s.oflag_ : Int), s)
  else if cmd = F_SETFL then (0, { s with oflag_ := arg })
  else (-1, s)

end DevNull

/-- The factory `DevNullHandler::open(fd, pathname, oflag, err)`: the stream it
returns, `none` standing for `NULL`. -/
def DevNullHandler.open (fd : Int) (_pathname : List CChar) (oflag : Nat) : Option DevNull :=
  some (DevNull.init fd oflag)

/-! ### The listening stream of `tcp_server_socket.cc` -/

/-- Result codes of `ppapi/c/pp_errors.h`. -/
def PP_OK : Int := 0
def PP_OK_COMPLETIONPENDING : Int := -1
def PP_ERROR_FAILED : Int := -2

/-- The fields of a `TCPServerSocket` used by the operations modelled:
`socket_` is `true` when the pointer is not `NULL`, `resource_` is the pending
connection, `0` when there is none. -/
structure TCPServerSocket where
  fd_ : Int
  oflag_ : Nat
  socket_ : Bool
  resource_ : Nat
deriving DecidableEq, Repr

/-- A listening stream together with what is pending outside it: `armed` counts
the calls `socket_->Accept(&resource_, ...)` the host has not completed yet,
`scheduled` the callbacks `Accept(PP_OK, NULL)` that `accept()` has put on the
main thread and that have not run yet, `listening` says that the host has not
completed `socket_->Listen` yet, and `pres` is the result cell of the waiting
`listen()` call. -/
structure Listener where
  sock : TCPServerSocket
  armed : Nat
  scheduled : Nat
  listening : Bool
  pres : Int
deriving DecidableEq, Repr

namespace TCPServerSocket

/-- Constructor `TCPServerSocket::TCPServerSocket(fd, oflag, saddr, addrlen)`. -/
def init (fd : Int) (oflag : Nat) : TCPServerSocket :=
  { fd_ := fd, oflag_ := oflag, socket_ := false, resource_ := 0 }

/-- The operation `TCPServerSocket::fcntl(cmd, ap)`. -/
def fcntl (cmd : Int) (arg : Nat) (s : TCPServerSocket) : Int × TCPServerSocket :=
  if cmd = F_GETFL then ((s.oflag_ : Int), s)
  else if cmd = F_SETFL then (0, { s with oflag_ := arg })
  else (-1, s)

end TCPServerSocket

namespace Listener

/-- A freshly constructed listening stream: nothing is pending and `listen()`
has stored `PP_OK_COMPLETIONPENDING` in its result cell. -/
def init (fd : Int) (oflag : Nat) : Listener :=
  { sock := TCPServerSocket.init fd oflag, armed := 0, scheduled := 0, listening := false,
    pres := PP_OK_COMPLETIONPENDING }

/-- The operation `TCPServerSocket::accept()`: the returned resource and the
new state. -/
def accept (l : Listener) : Nat × Listener :=
  if l.sock.resource_ = 0 then (0, l)
  else (l.sock.resource_,
    { l with sock := { l.sock with resource_ := 0 }, scheduled := l.scheduled + 1 })

/-- The callback `TCPServerSocket::Listen(result, backlog, pres)`; `addrOk` is
what `CreateNetAddress` returns and `hostRes` what `socket_->Listen` returns. -/
def Listen (env : Env) (addrOk : Bool) (hostRes : Int) (l : Listener) : Option Listener :=
  if env.ndebug || !l.sock.socket_ then
    let l1 := { l with sock := { l.sock with socket_ := true } }
    if addrOk then
      some { l1 with pres := hostRes,
                     listening := l1.listening || decide (hostRes = PP_OK_COMPLETIONPENDING) }
    else some { l1 with pres := PP_ERROR_FAILED }
  else none

/-- The callback `TCPServerSocket::Accept(result, pres)`; `hasPres` says that
`pres` is not `NULL` and `hostRes` is what `socket_->Accept` returns. -/
def Accept (env : Env) (result : Int) (hasPres : Bool) (hostRes : Int) (l : Listener) :
    Option Listener :=
  if env.ndebug || l.sock.socket_ then
    let l1 := if result = PP_OK then { l with armed := l.armed + 1 } else l
    let result1 :=
      if result = PP_OK then
        (if hostRes = PP_OK_COMPLETIONPENDING then PP_OK else hostRes)
      else result
    some (if hasPres then { l1 with pres := result1 } else l1)
  else none

/-- The callback `TCPServerSocket::OnAccept(result)`. -/
def OnAccept (env : Env) (l : Listener) : Option Listener :=
  if env.ndebug || l.sock.socket_ then some l else none

end Listener

/-- What happens to a listening stream: the main thread runs `Listen`, the host
completes the listen and calls `Accept(result, pres)`, the main thread runs an
`Accept(PP_OK, NULL)` scheduled by `accept()`, the host completes an armed
accept with the connection `conn` (writing it to `resource_` and calling
`OnAccept`), the calling thread calls `accept()`. -/
inductive LEvent where
  | listen (addrOk : Bool) (hostRes : Int)
  | listenDone (result hostRes : Int)
  | runAccept (hostRes : Int)
  | connection (conn : Nat)
  | accept
deriving DecidableEq, Repr

/-- One event of a listening stream. `Listen` runs on a stream that has no
socket yet (what its assertion demands); the host completes only a listen that
is in progress and only an accept that is armed, and the main thread runs only
a callback that was scheduled; otherwise the event cannot happen (`none`). -/
def lStep (env : Env) (e : LEvent) (l : Listener) : Option Listener :=
  match e with
  | .listen addrOk hostRes =>
    if l.sock.socket_ then none else l.Listen env addrOk hostRes
  | .listenDone result hostRes =>
    if l.listening then
      Listener.Accept env result true hostRes { l with listening := false }
    else none
  | .runAccept hostRes =>
    if 0 < l.scheduled then
      Listener.Accept env PP_OK false hostRes { l with scheduled := l.scheduled - 1 }
    else none
  | .connection conn =>
    if 0 < l.armed then
      Listener.OnAccept env
        { l with armed := l.armed - 1, sock := { l.sock with resource_ := conn } }
    else none
  | .accept => some l.accept.2

/-- A sequence of events of a listening stream. -/
def lExec (env : Env) : List LEvent → Listener → Option Listener
  | [], l => some l
  | e :: rest, l =>
    match lStep env e l with
    | none => none
    | some l1 => lExec env rest l1

/-- What is pending around a listening stream: armed host accepts, scheduled
re-arms, a connection in the slot, a listen in progress. -/
def Listener.pending (l : Listener) : Nat :=
  l.armed + l.scheduled + (if l.sock.resource_ = 0 then 0 else 1) +
    (if l.listening then 1 else 0)

/-- A listen, its completion, a first connection, its retrieval and the re-arm. -/
def demoListenEvents : List LEvent :=
  [.listen true (-1), .listenDone 0 (-1), .connection 41, .accept, .runAccept (-1)]

/-- An open terminal in canonical mode (settings of `InitTerminal`) with
nothing buffered. -/
def demoTtyEmpty : JsFile := { demoFresh with is_open_ := true, is_atty_ := true }

/-- The wakeups of the canonical-mode example: the host delivers `"ab"`,
announces more input, and delivers `"\r"`. -/
def demoLineActs : List Action :=
  [fun s => (JsFile.OnRead [97, 98] s).1, JsFile.OnReadReady true,
   fun s => (JsFile.OnRead [13] s).1]

/-- An open pipe on descriptor 5 with a flush task pending. -/
def demoOpenPipe : JsFile := { demoFresh with fd_ := 5, is_open_ := true, out_task_sent_ := true }

/-! ### The function `connect` of `wassh-libc-sup/src/connect.c` -/

/-- Address families of `<sys/socket.h>`, the size of `sun_path` in `<sys/un.h>`
and `EINVAL` of `<errno.h>`. The families are pairwise distinct. -/
def AF_INET : Nat := 1
def AF_INET6 : Nat := 2
def AF_UNIX : Nat := 3
def SUN_PATH_SIZE : Nat := 108
def EINVAL : Int := 28

/-- The function `ntohs` on the little-endian WebAssembly target: the two bytes
of a 16-bit value are exchanged. -/
def ntohs (x : Nat) : Nat := (x % 256) * 256 + (x / 256) % 256

/-- A socket address as `connect` reads it: the family and, for each of the
three views `sockaddr_in`, `sockaddr_in6` and `sockaddr_un` that the function
casts the pointer to, the fields it reads. Ports are the 16-bit values stored
in network byte order; addresses and the path are byte strings. -/
structure SockAddr where
  sa_family : Nat
  sin_port : Nat
  sin_addr : List Nat
  sin6_port : Nat
  sin6_flowinfo : Nat
  sin6_scope_id : Nat
  sin6_addr : List Nat
  sun_path : List Nat
deriving DecidableEq, Repr

/-- The arguments of a call of `sock_connect`: descriptor, domain, address
bytes and port. -/
structure SockConnectCall where
  sock : Int
  domain : Int
  addr : List Nat
  port : Nat
deriving DecidableEq, Repr

/-- What `connect` hands back: the returned value, the value stored in `errno`
if any, and the calls of `sock_connect` it made. -/
structure ConnectResult where
  ret : Int
  errno : Option Int
  calls : List SockConnectCall
deriving DecidableEq, Repr

/-- The function `connect(sock, addr, addrlen)`; `sock_connect` is the syscall
of the bottom half, declared in `bh-syscalls.h`. -/
def connect (sock_connect : SockConnectCall → Int) (sock : Int) (addr : SockAddr) :
    ConnectResult :=
  let sys_domain : Int := addr.sa_family
  let args : Option (List Nat × Nat) :=
    if addr.sa_family = AF_INET then some (addr.sin_addr, ntohs addr.sin_port % 65536)
    else if addr.sa_family = AF_INET6 then
      if addr.sin6_flowinfo ≠ 0 then none
      else if addr.sin6_scope_id ≠ 0 then none
      else some (addr.sin6_addr, ntohs addr.sin6_port % 65536)
    else if addr.sa_family = AF_UNIX then some (addr.sun_path, SUN_PATH_SIZE % 65536)
    else none
  match args with
  | none => { ret := -1, errno := some EINVAL, calls := [] }
  | some (sys_addr, sys_port) =>
    let call : SockConnectCall :=
      { sock := sock, domain := sys_domain, addr := sys_addr, port := sys_port }
    { ret := sock_connect call, errno := none, calls := [call] }

/-- The condition under which the claim says `connect` rejects an address. -/
def SockAddr.rejected (addr : SockAddr) : Prop :=
  (addr.sa_family ≠ AF_INET ∧ addr.sa_family ≠ AF_INET6 ∧ addr.sa_family ≠ AF_UNIX) ∨
  (addr.sa_family = AF_INET6 ∧ (addr.sin6_flowinfo ≠ 0 ∨ addr.sin6_scope_id ≠ 0))

instance (addr : SockAddr) : Decidable addr.rejected := by
  unfold SockAddr.rejected
  infer_instance

/-- An IPv4 address 127.0.0.1 with port 22 (stored as `0x1600`). -/
def demoAddr4 : SockAddr :=
  { sa_family := AF_INET, sin_port := 5632, sin_addr := [127, 0, 0, 1], sin6_port := 0,
    sin6_flowinfo := 0, sin6_scope_id := 0, sin6_addr := [], sun_path := [] }

/-- An IPv6 address with a scope id. -/
def demoAddr6Scoped : SockAddr :=
  { demoAddr4 with sa_family := AF_INET6, sin6_port := 5632, sin6_scope_id := 2 }

/-- The completed lines of an input buffer: the part of the buffer up to and
including its last `'\n'` (the trailing bytes that are not `'\n'` dropped);
empty when the buffer holds no `'\n'`. -/
def completedLines (b : List CChar) : List CChar := b.rdropWhile (fun c => c != NL)

/-- The stream a fresh stream becomes when its acknowledged counter is 5 and
nothing was sent. -/
def demoAckAhead : JsFile := { demoFresh with write_acknowledged_ := 5 }

/-- A host with the largest window a 32-bit `size_t` can hold. -/
def demoWideEnv : Env := { window := 4294967295, ndebug := false }

/-- An open pipe with `4294967295` bytes in flight and one byte queued. -/
def demoWindowFull : JsFile :=
  { demoFresh with is_open_ := true, write_sent_ := 4294967295, out_buf_ := [0] }

open JsFile

/-! ## Flow control: the write window -/

theorem PostWriteTask_post_counters (env : Env) (s : JsFile) :
    (PostWriteTask_post env s).write_sent_ = s.write_sent_ ∧
    (PostWriteTask_post env s).write_acknowledged_ = s.write_acknowledged_ ∧
    (PostWriteTask_post env s).out_buf_ = s.out_buf_ := by
  unfold PostWriteTask_post
  split <;> simp

theorem Write_windowInv (env : Env) (hostOk : Bool) (s s1 : JsFile) (log : Log)
    (hinv : WindowInv env s) (h : Write env hostOk s = some (s1, log)) :
    WindowInv env s1 := by
  obtain ⟨h1, h2, h3⟩ := hinv
  unfold Write at h
  simp only at h
  split at h
  · simp only [Option.some.injEq, Prod.mk.injEq] at h
    obtain ⟨rfl, -⟩ := h
    exact ⟨h1, h2, h3⟩
  · split at h
    · simp only [Option.some.injEq, Prod.mk.injEq] at h
      obtain ⟨rfl, -⟩ := h
      simp only [WindowInv, inFlight, writeCount, u64_sub, u64_add, U64, SIZE_MOD] at *
      omega
    · split at h
      · simp only [Option.some.injEq, Prod.mk.injEq] at h
        obtain ⟨rfl, -⟩ := h
        obtain ⟨e1, e2, -⟩ := PostWriteTask_post_counters env { s with out_task_sent_ := false }
        simp only [WindowInv, inFlight, e1, e2]
        exact ⟨h1, h2, h3⟩
      · simp at h

theorem PostWriteTask_windowInv (env : Env) (a m hostOk : Bool) (s s1 : JsFile) (log : Log)
    (hinv : WindowInv env s) (h : PostWriteTask env a m hostOk s = some (s1, log)) :
    WindowInv env s1 := by
  unfold PostWriteTask at h
  split at h
  · split at h
    · simp only [Option.some.injEq, Prod.mk.injEq] at h
      obtain ⟨rfl, -⟩ := h
      exact hinv
    · exact Write_windowInv env hostOk s s1 log hinv h
  · simp only [Option.some.injEq, Prod.mk.injEq] at h
    obtain ⟨rfl, -⟩ := h
    exact hinv

theorem write_counters (env : Env) (buf : List CChar) (s : JsFile) (r : WriteResult)
    (h : write env buf s = some r) :
    r.state.write_sent_ = s.write_sent_ ∧
    r.state.write_acknowledged_ = s.write_acknowledged_ := by
  unfold write at h
  split at h
  · simp only [Option.some.injEq] at h
    subst h
    simp
  · simp only at h
    split at h
    · simp at h
    · simp only [Option.some.injEq] at h
      subst h
      rename_i o _
      obtain ⟨e1, e2, -⟩ := PostWriteTask_post_counters env
        { s with out_buf_ := o }
      simp only [e1, e2]
      simp

theorem step_windowInv (env : Env) (e : Event) (t t1 : Trace)
    (hadm : e.admissible t.state = true) (hinv : WindowInv env t.state)
    (h : step env e t = some t1) : WindowInv env t1.state := by
  cases e with
  | onOpen success is_atty =>
    simp only [step, Option.some.injEq] at h
    subst h
    simp only [WindowInv, inFlight, OnOpen] at *
    split <;> exact hinv
  | onClose =>
    simp only [step, Option.some.injEq] at h
    subst h
    exact hinv
  | write buf =>
    simp only [step] at h
    split at h
    · simp at h
    · rename_i r hr
      simp only [Option.some.injEq] at h
      subst h
      obtain ⟨e1, e2⟩ := write_counters env buf t.state r hr
      simp only [WindowInv, inFlight, e1, e2]
      exact hinv
  | flush hostOk =>
    simp only [step] at h
    split at h
    · simp at h
    · rename_i s log hw
      simp only [Option.some.injEq] at h
      subst h
      exact Write_windowInv env hostOk t.state s log hinv hw
  | onAck count isMain hostOk =>
    simp only [step] at h
    split at h
    · simp at h
    · rename_i s log hw
      simp only [Option.some.injEq] at h
      subst h
      simp only [Event.admissible, Bool.and_eq_true, decide_eq_true_eq] at hadm
      unfold OnWriteAcknowledge at hw
      split at hw
      · refine PostWriteTask_windowInv env false isMain hostOk _ s log ?_ hw
        simp only [WindowInv, inFlight, u64_sub, U64] at *
        omega
      · simp at hw

theorem exec_windowInv (env : Env) (evs : List Event) (t t1 : Trace)
    (hinv : WindowInv env t.state) (h : exec env evs t = some t1) :
    WindowInv env t1.state := by
  induction evs generalizing t with
  | nil =>
    simp only [exec, Option.some.injEq] at h
    subst h
    exact hinv
  | cons e rest ih =>
    simp only [exec] at h
    split at h
    · rename_i hadm
      split at h
      · simp at h
      · rename_i t2 hs
        exact ih t2 (step_windowInv env e t t2 hadm hinv hs) h
    · simp at h

/-! ## The operation `write` -/

theorem nlcrLoop_spec (rest : List CChar) : ∀ (pre : List CChar) (fuel : Nat),
    rest.length ≤ fuel → nlcrLoop fuel pre.length (pre ++ rest) = some (pre ++ crnl rest) := by
  induction rest with
  | nil =>
    intro pre fuel _
    cases fuel <;> simp [nlcrLoop, crnl]
  | cons c r ih =>
    intro pre fuel hf
    cases fuel with
    | zero => simp at hf
    | succ f =>
      have hf2 : r.length ≤ f := by simpa using hf
      have hlt : pre.length < (pre ++ c :: r).length := by simp
      have hget : (pre ++ c :: r).getD pre.length 0 = c := by
        rw [List.getD_eq_getElem?_getD, List.getElem?_append_right (le_refl _)]
        simp
      have htake : (pre ++ c :: r).take pre.length = pre := by simp
      have hdrop : (pre ++ c :: r).drop pre.length = c :: r := by simp
      rw [nlcrLoop, if_pos hlt, hget, htake, hdrop]
      by_cases hc : c = NL
      · rw [if_pos hc]
        have h2 := ih (pre ++ [CR, c]) f hf2
        simp only [List.length_append, List.length_cons, List.length_nil, List.append_assoc,
          List.cons_append, List.nil_append] at h2
        simp only [zero_add, Nat.reduceAdd] at h2
        rw [h2, crnl, if_pos hc, hc]
      · rw [if_neg hc]
        have h2 := ih (pre ++ [c]) f hf2
        simp only [List.length_append, List.length_cons, List.length_nil, List.append_assoc,
          List.cons_append, List.nil_append, zero_add] at h2
        rw [h2, crnl, if_neg hc]

theorem write_open (env : Env) (buf : List CChar) (s : JsFile) (h : s.is_open = true) :
    write env buf s = some
      { ret := 0, nwrote := some buf.length,
        state := PostWriteTask_post env
          { s with out_buf_ := s.out_buf_ ++ (if s.nlcrOn then crnl buf else buf) } } := by
  unfold write
  simp only [h, Bool.not_true, Bool.false_eq_true, if_false]
  by_cases hn : s.nlcrOn = true
  · have hn2 : (({ s with out_buf_ := s.out_buf_ ++ buf } : JsFile).isatty &&
        testFlag s.tio_.c_oflag OPOST && testFlag s.tio_.c_oflag ONLCR) = true := by
      simpa [nlcrOn, isatty] using hn
    simp only [hn2, if_true, hn]
    have := nlcrLoop_spec buf s.out_buf_ buf.length (le_refl _)
    simp only [List.length_append, Nat.add_sub_cancel]
    rw [this]
  · have hn2 : (({ s with out_buf_ := s.out_buf_ ++ buf } : JsFile).isatty &&
        testFlag s.tio_.c_oflag OPOST && testFlag s.tio_.c_oflag ONLCR) = false := by
      simpa [nlcrOn, isatty] using hn
    simp only [hn2, Bool.false_eq_true, if_false, hn]

theorem write_closed (env : Env) (buf : List CChar) (s : JsFile) (h : s.is_open = false) :
    write env buf s = some { ret := EIO, nwrote := none, state := s } := by
  unfold write
  simp [h]

/-! ## The flush `JsFile::Write` and conservation of queued bytes -/

theorem writeCount_le (env : Env) (s : JsFile) : writeCount env s ≤ s.out_buf_.length := by
  unfold writeCount
  exact Nat.min_le_right _ _

theorem Write_zero (env : Env) (hostOk : Bool) (s : JsFile) (h : writeCount env s = 0) :
    Write env hostOk s = some ({ s with out_task_sent_ := false }, []) := by
  have h1 : writeCount env { s with out_task_sent_ := false } = 0 := h
  unfold Write
  simp only [h1, if_true]

theorem Write_accept (env : Env) (s : JsFile) (h : writeCount env s ≠ 0) :
    Write env true s = some
      ({ s with out_task_sent_ := false,
                write_sent_ := u64_add s.write_sent_ (writeCount env s),
                out_buf_ := s.out_buf_.drop (writeCount env s) },
       [s.out_buf_.take (writeCount env s)]) := by
  have h1 : writeCount env { s with out_task_sent_ := false } = writeCount env s := rfl
  unfold Write
  simp only [h1, if_neg h, if_true]

theorem Write_reject (env : Env) (s : JsFile) (h : writeCount env s ≠ 0) :
    Write env false s =
      if env.ndebug then
        some (PostWriteTask_post env { s with out_task_sent_ := false },
          [s.out_buf_.take (writeCount env s)])
      else none := by
  have h1 : writeCount env { s with out_task_sent_ := false } = writeCount env s := rfl
  unfold Write
  simp only [h1, if_neg h, Bool.false_eq_true, if_false]

/-- What a flush does to the stream and to the history of accepted bytes. -/
theorem Write_effect (env : Env) (hostOk : Bool) (s s1 : JsFile) (log : Log)
    (h : Write env hostOk s = some (s1, log)) :
    s1.write_acknowledged_ = s.write_acknowledged_ ∧
    (s1.write_sent_ = s.write_sent_ ∨
      s1.write_sent_ = u64_add s.write_sent_ (writeCount env s)) ∧
    (if hostOk then logBytes log else []) ++ s1.out_buf_ = s.out_buf_ := by
  by_cases hz : writeCount env s = 0
  · rw [Write_zero env hostOk s hz] at h
    simp only [Option.some.injEq, Prod.mk.injEq] at h
    obtain ⟨rfl, rfl⟩ := h
    simp [logBytes]
  · cases hostOk with
    | true =>
      rw [Write_accept env s hz] at h
      simp only [Option.some.injEq, Prod.mk.injEq] at h
      obtain ⟨rfl, rfl⟩ := h
      simp [logBytes]
    | false =>
      rw [Write_reject env s hz] at h
      split at h
      · simp only [Option.some.injEq, Prod.mk.injEq] at h
        obtain ⟨rfl, rfl⟩ := h
        obtain ⟨e1, e2, e3⟩ := PostWriteTask_post_counters env { s with out_task_sent_ := false }
        simp [e1, e2, e3]
      · simp at h

theorem PostWriteTask_effect (env : Env) (a m hostOk : Bool) (s s1 : JsFile) (log : Log)
    (h : PostWriteTask env a m hostOk s = some (s1, log)) :
    s1.write_acknowledged_ = s.write_acknowledged_ ∧
    (s1.write_sent_ = s.write_sent_ ∨
      s1.write_sent_ = u64_add s.write_sent_ (writeCount env s)) ∧
    (if hostOk then logBytes log else []) ++ s1.out_buf_ = s.out_buf_ := by
  unfold PostWriteTask at h
  split at h
  · split at h
    · simp only [Option.some.injEq, Prod.mk.injEq] at h
      obtain ⟨rfl, rfl⟩ := h
      simp [logBytes]
    · exact Write_effect env hostOk s s1 log h
  · simp only [Option.some.injEq, Prod.mk.injEq] at h
    obtain ⟨rfl, rfl⟩ := h
    simp [logBytes]

/-- Conservation of queued bytes by one event. -/
theorem step_conserve (env : Env) (e : Event) (t t1 : Trace) (base : List CChar)
    (hc : t.transmitted ++ t.state.out_buf_ = base ++ t.enqueued)
    (h : step env e t = some t1) :
    t1.transmitted ++ t1.state.out_buf_ = base ++ t1.enqueued := by
  cases e with
  | onOpen success is_atty =>
    simp only [step, Option.some.injEq] at h
    subst h
    simp only [OnOpen]
    split <;> exact hc
  | onClose =>
    simp only [step, Option.some.injEq] at h
    subst h
    exact hc
  | write buf =>
    simp only [step] at h
    split at h
    · simp at h
    · rename_i r hr
      simp only [Option.some.injEq] at h
      subst h
      by_cases ho : t.state.is_open = true
      · rw [write_open env buf t.state ho] at hr
        simp only [Option.some.injEq] at hr
        subst hr
        obtain ⟨-, -, e3⟩ := PostWriteTask_post_counters env
          { t.state with out_buf_ := t.state.out_buf_ ++
              (if t.state.nlcrOn then crnl buf else buf) }
        simp only [e3, if_true]
        rw [← List.append_assoc, hc, List.append_assoc]
      · simp only [Bool.not_eq_true] at ho
        rw [write_closed env buf t.state ho] at hr
        simp only [Option.some.injEq] at hr
        subst hr
        simp only [ EIO]
        simpa using hc
  | flush hostOk =>
    simp only [step] at h
    split at h
    · simp at h
    · rename_i s log hw
      simp only [Option.some.injEq] at h
      subst h
      obtain ⟨-, -, e3⟩ := Write_effect env hostOk t.state s log hw
      simp only
      rw [← hc, ← e3]
      cases hostOk <;> simp
  | onAck count isMain hostOk =>
    simp only [step] at h
    split at h
    · simp at h
    · rename_i s log hw
      simp only [Option.some.injEq] at h
      subst h
      unfold OnWriteAcknowledge at hw
      split at hw
      · obtain ⟨-, -, e3⟩ := PostWriteTask_effect env false isMain hostOk _ s log hw
        simp only at e3 ⊢
        rw [← hc, ← e3]
        cases hostOk <;> simp
      · simp at hw

theorem exec_conserve (env : Env) (evs : List Event) (t t1 : Trace) (base : List CChar)
    (hc : t.transmitted ++ t.state.out_buf_ = base ++ t.enqueued)
    (h : exec env evs t = some t1) :
    t1.transmitted ++ t1.state.out_buf_ = base ++ t1.enqueued := by
  induction evs generalizing t with
  | nil =>
    simp only [exec, Option.some.injEq] at h
    subst h
    exact hc
  | cons e rest ih =>
    simp only [exec] at h
    split at h
    · split at h
      · simp at h
      · rename_i t2 hs
        exact ih t2 (step_conserve env e t t2 base hc hs) h
    · simp at h

theorem exec_append (env : Env) (evs1 evs2 : List Event) (t t2 : Trace)
    (h : exec env (evs1 ++ evs2) t = some t2) :
    ∃ t1, exec env evs1 t = some t1 ∧ exec env evs2 t1 = some t2 := by
  induction evs1 generalizing t with
  | nil => exact ⟨t, rfl, h⟩
  | cons e rest ih =>
    simp only [List.cons_append, exec] at h ⊢
    split at h
    · rename_i hadm
      simp only [hadm, if_true]
      split at h
      · simp at h
      · rename_i t3 hs
        exact ih t3 h
    · simp at h

/-- Sequences of writes and accepted flushes never abort. -/
theorem exec_total (env : Env) (evs : List Event) (t : Trace)
    (h : ∀ e ∈ evs, (∃ buf, e = Event.write buf) ∨ e = Event.flush true) :
    ∃ t1, exec env evs t = some t1 := by
  induction evs generalizing t with
  | nil => exact ⟨t, rfl⟩
  | cons e rest ih =>
    have hrest : ∀ e ∈ rest, (∃ buf, e = Event.write buf) ∨ e = Event.flush true :=
      fun e he => h e (List.mem_cons_of_mem _ he)
    rcases h e (List.mem_cons_self _ _) with ⟨buf, rfl⟩ | rfl
    · simp only [exec, Event.admissible, if_true, step]
      by_cases ho : t.state.is_open = true
      · rw [write_open env buf t.state ho]
        exact ih _ hrest
      · simp only [Bool.not_eq_true] at ho
        rw [write_closed env buf t.state ho]
        exact ih _ hrest
    · simp only [exec, Event.admissible, if_true, step]
      by_cases hz : writeCount env t.state = 0
      · rw [Write_zero env true t.state hz]
        exact ih _ hrest
      · rw [Write_accept env t.state hz]
        exact ih _ hrest

/-! ## The operation `read` -/

theorem waitWhile_exit (cond : JsFile → Bool) (acts : List Action) :
    ∀ (s s1 : JsFile) (acts1 : List Action),
      waitWhile cond acts s = some (s1, acts1) → cond s1 = false := by
  induction acts with
  | nil =>
    intro s s1 acts1 h
    simp only [waitWhile] at h
    split at h
    · simp at h
    · simp only [Option.some.injEq, Prod.mk.injEq] at h
      obtain ⟨rfl, -⟩ := h
      simpa using ‹¬ cond s = true›
  | cons a rest ih =>
    intro s s1 acts1 h
    simp only [waitWhile] at h
    split at h
    · exact ih _ _ _ h
    · simp only [Option.some.injEq, Prod.mk.injEq] at h
      obtain ⟨rfl, -⟩ := h
      simpa using ‹¬ cond s = true›

theorem waitWhile_false (cond : JsFile → Bool) (acts : List Action) (s : JsFile)
    (h : cond s = false) : waitWhile cond acts s = some (s, acts) := by
  cases acts <;> simp [waitWhile, h]

theorem canonWait_exit (fuel : Nat) :
    ∀ (acts : List Action) (s : JsFile) (reqs : List Nat) (s1 : JsFile) (acts1 : List Action)
      (reqs1 : List Nat), canonWait fuel acts s reqs = some (s1, acts1, reqs1) →
      s1.is_open = false ∨ NL ∈ s1.in_buf_ := by
  induction fuel with
  | zero =>
    intro acts s reqs s1 acts1 reqs1 h
    simp [canonWait] at h
  | succ f ih =>
    intro acts s reqs s1 acts1 reqs1 h
    simp only [canonWait] at h
    split at h
    · rename_i ho
      simp only [Option.some.injEq, Prod.mk.injEq] at h
      obtain ⟨rfl, -⟩ := h
      left
      simpa using ho
    · split at h
      · rename_i hn
        simp only [Option.some.injEq, Prod.mk.injEq] at h
        obtain ⟨rfl, -⟩ := h
        right
        simpa using hn
      · split at h
        · simp at h
        · split at h
          · simp at h
          · exact ih _ _ _ _ _ _ h

theorem canonWait_closed (fuel : Nat) (acts : List Action) (s : JsFile) (reqs : List Nat)
    (h : s.is_open = false) : canonWait (fuel + 1) acts s reqs = some (s, acts, reqs) := by
  simp [canonWait, h]

theorem drain_eq (n : Nat) : ∀ b : List CChar, drain n b = (b.take n, b.drop n) := by
  induction n with
  | zero => intro b; simp [drain]
  | succ k ih =>
    intro b
    cases b with
    | nil => simp [drain]
    | cons c r => simp [drain, ih r]

theorem readWait_block_exit (count : Nat) (acts : List Action) (s s1 : JsFile)
    (acts1 : List Action) (reqs : List Nat) (hb : s.is_block = true)
    (h : readWait count acts s = some (s1, acts1, reqs)) :
    s1.is_open = false ∨ s1.in_buf_ ≠ [] := by
  unfold readWait at h
  simp only [hb, if_true] at h
  split at h
  · simp at h
  · rename_i s2 acts2 hw
    have hx := waitWhile_exit _ acts s s2 acts2 hw
    simp only [Bool.and_eq_false_imp] at hx
    split at h
    · rcases canonWait_exit _ _ _ _ _ _ _ h with h1 | h1
      · exact Or.inl h1
      · right
        intro he
        rw [he] at h1
        simp at h1
    · simp only [Option.some.injEq, Prod.mk.injEq] at h
      obtain ⟨rfl, -, -⟩ := h
      by_cases ho : s2.is_open = true
      · right
        have := hx ho
        intro he
        rw [he] at this
        simp at this
      · left
        simpa using ho

theorem read_closed (count : Nat) (acts : List Action) (s : JsFile)
    (h : s.is_open = false) :
    read count acts s = some
      { ret := 0, nread := min count s.in_buf_.length, data := s.in_buf_.take count,
        state := { s with in_buf_ := s.in_buf_.drop count }, requests := [] } := by
  have hw : readWait count acts s = some (s, acts, []) := by
    unfold readWait
    have h1 : waitWhile (fun t => t.is_open && t.in_buf_.isEmpty) acts s = some (s, acts) :=
      waitWhile_false _ acts s (by simp [h])
    have h2 : waitWhile (fun t => t.is_open && t.in_buf_.isEmpty && t.is_read_ready_) acts s
        = some (s, acts) := waitWhile_false _ acts s (by simp [h])
    simp only [h, Bool.false_and, Bool.false_eq_true, if_false, h1, h2]
    have h3 : (if s.is_block = true then some (s, acts)
        else if s.is_read_ready_ = true then some (s, acts) else some (s, acts))
        = some (s, acts) := by
      split
      · rfl
      · split <;> rfl
    rw [h3]
    simp only
    split
    · exact canonWait_closed _ acts s [] h
    · rfl
  unfold JsFile.read
  rw [hw]
  have ho2 : s.is_open_ = false := h
  simp only [drain_eq, List.length_take, JsFile.is_open, ho2, Bool.and_false,
    Bool.false_eq_true, if_false]

theorem waitWhile_length (cond : JsFile → Bool) (acts : List Action) :
    ∀ (s s1 : JsFile) (acts1 : List Action),
      waitWhile cond acts s = some (s1, acts1) →
      acts1.length ≤ acts.length ∧ (cond s = true → acts1.length < acts.length) := by
  induction acts with
  | nil =>
    intro s s1 acts1 h
    simp only [waitWhile] at h
    split at h
    · simp at h
    · rename_i hc
      simp only [Option.some.injEq, Prod.mk.injEq] at h
      obtain ⟨-, rfl⟩ := h
      exact ⟨le_refl _, fun h => absurd h hc⟩
  | cons a rest ih =>
    intro s s1 acts1 h
    simp only [waitWhile] at h
    split at h
    · have := (ih _ _ _ h).1
      simp only [List.length_cons]
      exact ⟨by omega, fun _ => by omega⟩
    · rename_i hc
      simp only [Option.some.injEq, Prod.mk.injEq] at h
      obtain ⟨-, rfl⟩ := h
      exact ⟨le_refl _, fun h => absurd h hc⟩

/-- The iteration bound `read` passes to `canonWait` is never the reason for a
`none`: with any two bounds of at least the number of remaining wakeups plus
two the loop gives the same result, so `none` means the call stays suspended. -/
theorem canonWait_fuel (n : Nat) :
    ∀ (acts : List Action) (s : JsFile) (reqs : List Nat) (f1 f2 : Nat),
      acts.length ≤ n → acts.length + 2 ≤ f1 → acts.length + 2 ≤ f2 →
      canonWait f1 acts s reqs = canonWait f2 acts s reqs := by
  induction n with
  | zero =>
    intro acts s reqs f1 f2 hn h1 h2
    obtain ⟨g1, rfl⟩ : ∃ g, f1 = g + 1 := ⟨f1 - 1, by omega⟩
    obtain ⟨g2, rfl⟩ : ∃ g, f2 = g + 1 := ⟨f2 - 1, by omega⟩
    simp only [canonWait]
    split
    · rfl
    · split
      · rfl
      · split
        · rfl
        · rename_i s1 acts1 hw1
          split
          · rfl
          · rename_i s2 acts2 hw2
            have l1 := waitWhile_length _ _ _ _ _ hw1
            have l2 := waitWhile_length _ _ _ _ _ hw2
            have hcl : s1.is_open = false := by
              by_contra hopen
              simp only [Bool.not_eq_false] at hopen
              have := l2.2 (by simp [hopen])
              omega
            have hs2 : s2 = s1 ∧ acts2 = acts1 := by
              rw [waitWhile_false _ acts1 s1 (by simp [hcl])] at hw2
              simp only [Option.some.injEq, Prod.mk.injEq] at hw2
              exact ⟨hw2.1.symm, hw2.2.symm⟩
            obtain ⟨rfl, rfl⟩ := hs2
            obtain ⟨k1, rfl⟩ : ∃ g, g1 = g + 1 := ⟨g1 - 1, by omega⟩
            obtain ⟨k2, rfl⟩ : ∃ g, g2 = g + 1 := ⟨g2 - 1, by omega⟩
            rw [canonWait_closed _ _ _ _ hcl, canonWait_closed _ _ _ _ hcl]
  | succ m ih =>
    intro acts s reqs f1 f2 hn h1 h2
    obtain ⟨g1, rfl⟩ : ∃ g, f1 = g + 1 := ⟨f1 - 1, by omega⟩
    obtain ⟨g2, rfl⟩ : ∃ g, f2 = g + 1 := ⟨f2 - 1, by omega⟩
    simp only [canonWait]
    split
    · rfl
    · split
      · rfl
      · split
        · rfl
        · rename_i s1 acts1 hw1
          split
          · rfl
          · rename_i s2 acts2 hw2
            have l1 := waitWhile_length _ _ _ _ _ hw1
            have l2 := waitWhile_length _ _ _ _ _ hw2
            by_cases hcl : s1.is_open = false
            · have hs2 : s2 = s1 ∧ acts2 = acts1 := by
                rw [waitWhile_false _ acts1 s1 (by simp [hcl])] at hw2
                simp only [Option.some.injEq, Prod.mk.injEq] at hw2
                exact ⟨hw2.1.symm, hw2.2.symm⟩
              obtain ⟨rfl, rfl⟩ := hs2
              obtain ⟨k1, rfl⟩ : ∃ g, g1 = g + 1 := ⟨g1 - 1, by omega⟩
              obtain ⟨k2, rfl⟩ : ∃ g, g2 = g + 1 := ⟨g2 - 1, by omega⟩
              rw [canonWait_closed _ _ _ _ hcl, canonWait_closed _ _ _ _ hcl]
            · simp only [Bool.not_eq_false] at hcl
              have := l2.2 (by simp [hcl])
              exact ih acts2 s2 _ g1 g2 (by omega) (by omega) (by omega)

/-! ## The line discipline of `OnRead` -/

theorem OnRead_single (c : CChar) (s : JsFile) (h : s.isatty = true) :
    OnRead [c] s =
      ({ (OnRead_char (s, []) c).1 with
          on_read_call_count_ := u64_add (OnRead_char (s, []) c).1.on_read_call_count_ 1 },
        (OnRead_char (s, []) c).2) := by
  simp [OnRead, h]

/-- The loop body of `OnRead` on an erase character in canonical mode with
`ECHOE` set. -/
theorem OnRead_char_erase (c : CChar) (s : JsFile) (log : Log)
    (hcanon : testFlag s.tio_.c_lflag ICANON = true)
    (hE : testFlag s.tio_.c_lflag ECHOE = true)
    (hc : c = (s.tio_.c_cc_VERASE : Int)) (hx : inputXlate s.tio_ c = some c) :
    OnRead_char (s, log) c =
      if s.in_buf_ = [] ∨ s.in_buf_.getLast? = some NL then (s, log)
      else ({ s with in_buf_ := s.in_buf_.dropLast },
        if testFlag s.tio_.c_lflag ECHO then log ++ [[8, 32, 8]] else log) := by
  unfold OnRead_char
  simp only [hx, hcanon, hE, if_true, Bool.true_and, decide_eq_true_eq]
  rw [if_pos hc]
  by_cases h1 : s.in_buf_ = []
  · simp [h1]
  · by_cases h2 : s.in_buf_.getLast? = some NL
    · simp [h1, h2]
    · simp [h1, h2]

/-- The loop body of `OnRead` on a character that is not handled as an erase:
canonical mode with `ECHOE` clear. -/
theorem OnRead_char_no_echoe (c : CChar) (s : JsFile) (log : Log)
    (hcanon : testFlag s.tio_.c_lflag ICANON = true)
    (hE : testFlag s.tio_.c_lflag ECHOE = false)
    (hx : inputXlate s.tio_ c = some c) :
    OnRead_char (s, log) c =
      ({ s with in_buf_ := s.in_buf_ ++ [c] },
        if (testFlag s.tio_.c_lflag ECHO ||
            (testFlag s.tio_.c_lflag ECHONL && decide (c = NL))) = true
        then log ++ [[c]] else log) := by
  unfold OnRead_char
  simp only [hx, hcanon, hE, if_true, Bool.false_and, Bool.false_eq_true, if_false]
  split <;> rfl

/-- The loop body of `OnRead` on a character that is translated to `c` and not
handled as an erase: `c` is appended, and echoed according to the echo rule. -/
theorem OnRead_char_store (c0 c : CChar) (s : JsFile) (log : Log)
    (hx : inputXlate s.tio_ c0 = some c) (he : erases s.tio_ c = false) :
    OnRead_char (s, log) c0 =
      ({ s with in_buf_ := s.in_buf_ ++ [c] },
        if echoRule s.tio_ c then log ++ [[c]] else log) := by
  unfold OnRead_char
  simp only [hx]
  by_cases hcanon : testFlag s.tio_.c_lflag ICANON = true
  · have he2 : (testFlag s.tio_.c_lflag ECHOE && decide (c = (s.tio_.c_cc_VERASE : Int)))
        = false := by
      simpa [erases, hcanon] using he
    simp only [hcanon, if_true, he2, Bool.false_eq_true, if_false, echoRule, Bool.true_and]
    split <;> rfl
  · simp only [Bool.not_eq_true] at hcanon
    simp only [hcanon, Bool.false_eq_true, if_false, echoRule, Bool.false_and, Bool.or_false]
    split <;> rfl

/-- The loop body of `OnRead` drops a `'\r'` when `IGNCR` is set. -/
theorem OnRead_char_igncr (s : JsFile) (log : Log)
    (h : testFlag s.tio_.c_iflag IGNCR = true) :
    OnRead_char (s, log) CR = (s, log) := by
  unfold OnRead_char
  simp [inputXlate, h]

theorem OnRead_nontty (d : List CChar) (s : JsFile) (h : s.isatty = false) :
    OnRead d s =
      ({ s with in_buf_ := s.in_buf_ ++ d,
                on_read_call_count_ := u64_add s.on_read_call_count_ 1 }, []) := by
  simp [OnRead, h]

theorem waitWhile_nil (cond : JsFile → Bool) (s s1 : JsFile) (acts1 : List Action)
    (h : waitWhile cond [] s = some (s1, acts1)) : s1 = s ∧ acts1 = [] := by
  simp only [waitWhile] at h
  split at h
  · simp at h
  · simp only [Option.some.injEq, Prod.mk.injEq] at h
    exact ⟨h.1.symm, h.2.symm⟩

theorem readWait_nil_nontty (count : Nat) (s s1 : JsFile) (acts1 : List Action)
    (reqs : List Nat) (hat : s.isatty = false)
    (h : readWait count [] s = some (s1, acts1, reqs)) : s1 = s := by
  unfold readWait at h
  simp only at h
  split at h
  · simp at h
  · rename_i s2 acts2 hw
    have hs2 : s2 = s := by
      split at hw
      · exact (waitWhile_nil _ _ _ _ hw).1
      · split at hw
        · exact (waitWhile_nil _ _ _ _ hw).1
        · simp only [Option.some.injEq, Prod.mk.injEq] at hw
          exact hw.1.symm
    subst hs2
    simp only [hat, Bool.false_and, Bool.false_eq_true, if_false, Option.some.injEq,
      Prod.mk.injEq] at h
    exact h.1.symm

/-- A `read` that does not wait hands out a front part of the input buffer and
keeps the rest. -/
theorem read_nowake_nontty (count : Nat) (s : JsFile) (r : ReadResult)
    (hat : s.isatty = false) (h : JsFile.read count [] s = some r) :
    r.data = s.in_buf_.take count ∧ r.state.in_buf_ = s.in_buf_.drop count ∧
    r.state.isatty = false ∧ r.state.is_block = s.is_block ∧
    r.state.is_read_ready_ = s.is_read_ready_ := by
  unfold JsFile.read at h
  split at h
  · simp at h
  · rename_i s1 acts1 reqs hw
    have hs := readWait_nil_nontty count s s1 acts1 reqs hat hw
    subst hs
    simp only [drain_eq] at h
    split at h <;>
      (simp only [Option.some.injEq] at h
       subst h
       exact ⟨rfl, rfl, hat, rfl, rfl⟩)

theorem inStep_frame (e : InEvent) (t t1 : InTrace) (hat : t.state.isatty = false)
    (h : inStep e t = some t1) :
    t1.state.isatty = false ∧
    t1.state.is_block = t.state.is_block ∧
    t1.state.is_read_ready_ = t.state.is_read_ready_ := by
  cases e with
  | deliver d =>
    simp only [inStep, Option.some.injEq] at h
    subst h
    rw [OnRead_nontty d t.state hat]
    exact ⟨hat, rfl, rfl⟩
  | read count =>
    simp only [inStep] at h
    split at h
    · simp at h
    · rename_i r hr
      simp only [Option.some.injEq] at h
      subst h
      obtain ⟨-, -, e3, e4, e5⟩ := read_nowake_nontty count t.state r hat hr
      exact ⟨e3, e4, e5⟩

theorem inStep_conserve (e : InEvent) (t t1 : InTrace) (base : List CChar)
    (hat : t.state.isatty = false)
    (hc : t.returned ++ t.state.in_buf_ = base ++ t.delivered)
    (h : inStep e t = some t1) :
    t1.returned ++ t1.state.in_buf_ = base ++ t1.delivered := by
  cases e with
  | deliver d =>
    simp only [inStep, Option.some.injEq] at h
    subst h
    rw [OnRead_nontty d t.state hat]
    simp only
    rw [← List.append_assoc, hc, List.append_assoc]
  | read count =>
    simp only [inStep] at h
    split at h
    · simp at h
    · rename_i r hr
      simp only [Option.some.injEq] at h
      subst h
      obtain ⟨e1, e2, -, -, -⟩ := read_nowake_nontty count t.state r hat hr
      simp only
      rw [e1, e2, List.append_assoc, List.take_append_drop, hc]

theorem inExec_conserve (evs : List InEvent) (t t1 : InTrace) (base : List CChar)
    (hat : t.state.isatty = false)
    (hc : t.returned ++ t.state.in_buf_ = base ++ t.delivered)
    (h : inExec evs t = some t1) :
    t1.returned ++ t1.state.in_buf_ = base ++ t1.delivered := by
  induction evs generalizing t with
  | nil =>
    simp only [inExec, Option.some.injEq] at h
    subst h
    exact hc
  | cons e rest ih =>
    simp only [inExec] at h
    split at h
    · simp at h
    · rename_i t2 hs
      exact ih t2 (inStep_frame e t t2 hat hs).1 (inStep_conserve e t t2 base hat hc hs) h

/-- A non-blocking `read` with the read-ready flag clear never waits. -/
theorem read_nonblock_total (count : Nat) (s : JsFile) (hat : s.isatty = false)
    (hb : s.is_block = false) (hr : s.is_read_ready_ = false) :
    ∃ r, JsFile.read count [] s = some r := by
  have hw : ∃ reqs, readWait count [] s = some (s, [], reqs) := by
    unfold readWait
    simp [hb, hr, hat]
  obtain ⟨reqs, hw⟩ := hw
  unfold JsFile.read
  rw [hw]
  simp only
  split <;> exact ⟨_, rfl⟩

theorem inExec_total (evs : List InEvent) (t : InTrace) (hat : t.state.isatty = false)
    (hb : t.state.is_block = false) (hr : t.state.is_read_ready_ = false) :
    ∃ t1, inExec evs t = some t1 := by
  induction evs generalizing t with
  | nil => exact ⟨t, rfl⟩
  | cons e rest ih =>
    have hstep : ∃ t2, inStep e t = some t2 := by
      cases e with
      | deliver d => exact ⟨_, rfl⟩
      | read count =>
        obtain ⟨r, hr2⟩ := read_nonblock_total count t.state hat hb hr
        simp only [inStep, hr2]
        exact ⟨_, rfl⟩
    obtain ⟨t2, h2⟩ := hstep
    obtain ⟨h1, h3, h4⟩ := inStep_frame e t t2 hat h2
    simp only [inExec, h2]
    exact ih t2 h1 (h3.trans hb) (h4.trans hr)

/-- The invariant of the single slot: at most one thing is pending, and nothing
is pending before `Listen` has created the socket. -/
theorem lStep_pending (env : Env) (e : LEvent) (l l1 : Listener)
    (hinv : l.pending ≤ 1 ∧ (l.sock.socket_ = false → l.pending = 0))
    (h : lStep env e l = some l1) :
    l1.pending ≤ 1 ∧ (l1.sock.socket_ = false → l1.pending = 0) := by
  obtain ⟨h1, h2⟩ := hinv
  cases e with
  | listen addrOk hostRes =>
    simp only [lStep] at h
    split at h
    · simp at h
    · rename_i hs
      simp only [Bool.not_eq_true] at hs
      have h0 := h2 hs
      simp only [Listener.pending] at h0
      have hl : l.listening = false := by
        cases hl : l.listening
        · rfl
        · simp [hl] at h0
      have hr : (if l.sock.resource_ = 0 then 0 else 1) = 0 := by omega
      simp only [Listener.Listen] at h
      split at h
      · split at h
        · simp only [Option.some.injEq] at h
          subst h
          simp only [Listener.pending, hl, Bool.false_or, hr]
          refine ⟨?_, by simp⟩
          split <;> omega
        · simp only [Option.some.injEq] at h
          subst h
          simp only [Listener.pending, hl, hr]
          refine ⟨?_, by simp⟩
          simp only [Bool.false_eq_true, if_false]
          omega
      · simp at h
  | listenDone result hostRes =>
    simp only [lStep] at h
    split at h
    · rename_i hl
      have hs : l.sock.socket_ = true := by
        by_contra hc
        simp only [Bool.not_eq_true] at hc
        have := h2 hc
        simp [Listener.pending, hl] at this
      simp only [Listener.pending, hl, if_true] at h1
      have hr0 : l.sock.resource_ = 0 := by
        by_contra hc
        simp only [hc, if_false] at h1
        omega
      have ha : l.armed = 0 := by omega
      have hsc : l.scheduled = 0 := by omega
      simp only [Listener.Accept] at h
      split at h
      · simp only [Option.some.injEq] at h
        subst h
        refine ⟨?_, ?_⟩
        · by_cases hr : result = PP_OK <;>
            simp [Listener.pending, hr, hr0, ha, hsc]
        · intro hc
          by_cases hr : result = PP_OK <;> simp [hr, hs] at hc
      · simp at h
    · simp at h
  | runAccept hostRes =>
    simp only [lStep] at h
    split at h
    · rename_i hsch
      have hs : l.sock.socket_ = true := by
        by_contra hc
        simp only [Bool.not_eq_true] at hc
        have := h2 hc
        simp only [Listener.pending] at this
        omega
      simp only [Listener.pending] at h1
      simp only [Listener.Accept, if_true, Bool.false_eq_true, if_false] at h
      split at h
      · simp only [Option.some.injEq] at h
        subst h
        refine ⟨?_, ?_⟩
        · simp only [Listener.pending]
          omega
        · intro hc
          simp [hs] at hc
      · simp at h
    · simp at h
  | connection conn =>
    simp only [lStep] at h
    split at h
    · rename_i harm
      have hs : l.sock.socket_ = true := by
        by_contra hc
        simp only [Bool.not_eq_true] at hc
        have := h2 hc
        simp only [Listener.pending] at this
        omega
      simp only [Listener.pending] at h1
      simp only [Listener.OnAccept] at h
      split at h
      · simp only [Option.some.injEq] at h
        subst h
        refine ⟨?_, ?_⟩
        · simp only [Listener.pending]
          split <;> split at h1 <;> omega
        · intro hc
          simp [hs] at hc
      · simp at h
    · simp at h
  | accept =>
    simp only [lStep, Option.some.injEq] at h
    subst h
    simp only [Listener.accept]
    split
    · exact ⟨h1, h2⟩
    · rename_i hr
      simp only [Listener.pending, hr, if_false] at h1
      refine ⟨?_, ?_⟩
      · simp only [Listener.pending, if_true]
        omega
      · intro hc
        have := h2 hc
        simp only [Listener.pending, hr, if_false] at this
        omega

theorem lExec_pending (env : Env) (evs : List LEvent) (l l1 : Listener)
    (hinv : l.pending ≤ 1 ∧ (l.sock.socket_ = false → l.pending = 0))
    (h : lExec env evs l = some l1) :
    l1.pending ≤ 1 ∧ (l1.sock.socket_ = false → l1.pending = 0) := by
  induction evs generalizing l with
  | nil =>
    simp only [lExec, Option.some.injEq] at h
    subst h
    exact hinv
  | cons e rest ih =>
    simp only [lExec] at h
    split at h
    · simp at h
    · rename_i l2 hs
      exact ih l2 (lStep_pending env e l l2 hinv hs) h

/-- A wait loop keeps every property that each wakeup keeps. -/
theorem waitWhile_keeps (P : JsFile → Prop) (cond : JsFile → Bool) (acts : List Action) :
    ∀ (s s1 : JsFile) (acts1 : List Action),
      (∀ a ∈ acts, ∀ t, P t → P (a t)) → P s →
      waitWhile cond acts s = some (s1, acts1) →
      P s1 ∧ ∀ a ∈ acts1, ∀ t, P t → P (a t) := by
  induction acts with
  | nil =>
    intro s s1 acts1 hP hs h
    obtain ⟨rfl, rfl⟩ := waitWhile_nil cond s s1 acts1 h
    exact ⟨hs, hP⟩
  | cons a rest ih =>
    intro s s1 acts1 hP hs h
    simp only [waitWhile] at h
    split at h
    · exact ih (a s) s1 acts1 (fun b hb => hP b (List.mem_cons_of_mem _ hb))
        (hP a (List.mem_cons_self _ _) s hs) h
    · simp only [Option.some.injEq, Prod.mk.injEq] at h
      obtain ⟨rfl, rfl⟩ := h
      exact ⟨hs, hP⟩

theorem OnRead_frame (d : List CChar) (s : JsFile) :
    (OnRead d s).1.isatty = s.isatty ∧ (OnRead d s).1.tio_ = s.tio_ := by
  have hchar : ∀ (st : JsFile × Log) (c : CChar),
      (OnRead_char st c).1.isatty = st.1.isatty ∧ (OnRead_char st c).1.tio_ = st.1.tio_ := by
    intro st c
    unfold OnRead_char
    simp only
    split
    · exact ⟨rfl, rfl⟩
    · split
      · split
        · split <;> exact ⟨rfl, rfl⟩
        · split <;> exact ⟨rfl, rfl⟩
      · split <;> exact ⟨rfl, rfl⟩
  have hfold : ∀ (l : List CChar) (st : JsFile × Log),
      (l.foldl OnRead_char st).1.isatty = st.1.isatty ∧
      (l.foldl OnRead_char st).1.tio_ = st.1.tio_ := by
    intro l
    induction l with
    | nil => intro st; exact ⟨rfl, rfl⟩
    | cons c r ih =>
      intro st
      simp only [List.foldl_cons]
      obtain ⟨h1, h2⟩ := ih (OnRead_char st c)
      obtain ⟨h3, h4⟩ := hchar st c
      exact ⟨h1.trans h3, h2.trans h4⟩
  unfold OnRead
  simp only
  split
  · obtain ⟨h1, h2⟩ := hfold d (s, [])
    exact ⟨h1, h2⟩
  · exact ⟨rfl, rfl⟩

theorem completedLines_concat (l : List CChar) (x : CChar) :
    completedLines (l ++ [x]) = if x = NL then l ++ [x] else completedLines l := by
  unfold completedLines
  by_cases h : x = NL
  · rw [if_pos h, List.rdropWhile_concat_neg]
    simp [h]
  · rw [if_neg h, List.rdropWhile_concat_pos]
    simp [h]

theorem completedLines_ends (b : List CChar) :
    completedLines b = [] ∨ (completedLines b).getLast? = some NL := by
  induction b using List.reverseRecOn with
  | nil => left; rfl
  | append_singleton l x ih =>
    rw [completedLines_concat]
    by_cases h : x = NL
    · right
      rw [if_pos h, h]
      simp
    · rw [if_neg h]
      exact ih

theorem completedLines_count (b : List CChar) :
    (completedLines b).count NL = b.count NL := by
  induction b using List.reverseRecOn with
  | nil => rfl
  | append_singleton l x ih =>
    rw [completedLines_concat]
    by_cases h : x = NL
    · rw [if_pos h]
    · rw [if_neg h, ih, List.count_append]
      have : List.count NL [x] = 0 := by
        simp [List.count_singleton, h]
      omega

/-- Removing a last byte that is not `'\n'` keeps every list that ends in
`'\n'` (or is empty) an initial part of the buffer. -/
theorem keeps_dropLast (pre b : List CChar) (hpre : pre = [] ∨ pre.getLast? = some NL)
    (h : pre <+: b) (hne : b ≠ []) (hlast : b.getLast? ≠ some NL) : pre <+: b.dropLast := by
  obtain ⟨l, x, rfl⟩ : ∃ l x, b = l ++ [x] := by
    rcases List.eq_nil_or_concat b with h0 | ⟨l, x, h0⟩
    · exact absurd h0 hne
    · exact ⟨l, x, by simpa using h0⟩
  have hx : x ≠ NL := by
    intro hc
    apply hlast
    simp [hc]
  rw [List.dropLast_concat]
  rcases List.prefix_concat_iff.mp h with h1 | h1
  · exfalso
    rcases hpre with h2 | h2
    · rw [h2] at h1
      simp at h1
    · rw [h1] at h2
      simp at h2
      exact hx h2
  · exact h1

/-- What one iteration of the loop of `OnRead` can do to the input buffer:
nothing, append one byte, or remove the last byte of a buffer that is not empty
and does not end in `'\n'`. -/
theorem OnRead_char_shape (st : JsFile × Log) (c : CChar) :
    (OnRead_char st c).1.in_buf_ = st.1.in_buf_ ∨
    (∃ c1, (OnRead_char st c).1.in_buf_ = st.1.in_buf_ ++ [c1]) ∨
    (st.1.in_buf_ ≠ [] ∧ st.1.in_buf_.getLast? ≠ some NL ∧
      (OnRead_char st c).1.in_buf_ = st.1.in_buf_.dropLast) := by
  unfold OnRead_char
  simp only
  split
  · exact Or.inl rfl
  · rename_i c1 _
    split
    · split
      · split
        · rename_i hcond
          simp only [Bool.and_eq_true, Bool.not_eq_true', bne_iff_ne, ne_eq] at hcond
          right; right
          refine ⟨?_, hcond.2, rfl⟩
          intro h0
          rw [h0] at hcond
          simp at hcond
        · exact Or.inl rfl
      · split
        · exact Or.inr (Or.inl ⟨c1, rfl⟩)
        · exact Or.inr (Or.inl ⟨c1, rfl⟩)
    · split
      · exact Or.inr (Or.inl ⟨c1, rfl⟩)
      · exact Or.inr (Or.inl ⟨c1, rfl⟩)

theorem OnRead_char_keeps (pre : List CChar) (hpre : pre = [] ∨ pre.getLast? = some NL)
    (st : JsFile × Log) (c : CChar) (h : pre <+: st.1.in_buf_) :
    pre <+: (OnRead_char st c).1.in_buf_ := by
  rcases OnRead_char_shape st c with h1 | ⟨c1, h1⟩ | ⟨h1, h2, h3⟩
  · rw [h1]
    exact h
  · rw [h1]
    exact h.trans (List.prefix_append _ _)
  · rw [h3]
    exact keeps_dropLast pre _ hpre h h1 h2

theorem OnRead_fold_keeps (pre : List CChar) (hpre : pre = [] ∨ pre.getLast? = some NL)
    (d : List CChar) : ∀ st : JsFile × Log, pre <+: st.1.in_buf_ →
      pre <+: (d.foldl OnRead_char st).1.in_buf_ := by
  induction d with
  | nil => intro st h; exact h
  | cons c r ih =>
    intro st h
    simp only [List.foldl_cons]
    exact ih _ (OnRead_char_keeps pre hpre st c h)

/-! ## Settled claims -/

/-- Claim C1 (write-window invariant): starting from a stream whose counters
`write_sent_` and `write_acknowledged_` are zero (as the constructor leaves
them), with a constant host window, after every prefix of every sequence of
confirmations of open and close, writes, flushes and acknowledgements whose
counts do not go back and do not exceed the current `write_sent_`, the
in-flight count `write_sent_ - write_acknowledged_` is at most the window. -/
theorem window_invariant (env : Env) (s0 : JsFile) (hs : s0.write_sent_ = 0)
    (ha : s0.write_acknowledged_ = 0) (evs1 evs2 : List Event) (t : Trace)
    (h : exec env (evs1 ++ evs2) (Trace.start s0) = some t) :
    ∃ t1, exec env evs1 (Trace.start s0) = some t1 ∧ t1.state.inFlight ≤ env.window := by
  obtain ⟨t1, h1, -⟩ := exec_append env evs1 evs2 _ t h
  refine ⟨t1, h1, ?_⟩
  have hinv : WindowInv env (Trace.start s0).state := by
    simp only [WindowInv, Trace.start, inFlight, hs, ha, u64_sub, U64]
    omega
  exact (exec_windowInv env evs1 _ t1 hinv h1).2.2

/-- Witness for C1: the example run executes and ends with four bytes in
flight under a window of four. -/
theorem window_invariant_witness :
    exec demoEnv demoEvents (Trace.start demoFresh) = some demoFinal ∧
      demoFinal.state.inFlight ≤ demoEnv.window := by
  have h : exec demoEnv demoEvents (Trace.start demoFresh) = some demoFinal := by decide
  obtain ⟨t1, h1, h2⟩ := window_invariant demoEnv demoFresh rfl rfl demoEvents [] demoFinal
    (by rw [List.append_nil]; exact h)
  rw [h] at h1
  cases h1
  exact ⟨h, h2⟩

/-- Counterexample to claim C2 as stated: `OnWriteAcknowledge` does not compare
the count with the previous one. On the stream reached by the example run
(3 acknowledged, 7 sent) the count 1, which does not exceed `write_sent_`,
moves `write_acknowledged_` back from 3 to 1. -/
theorem ack_can_go_back :
    (exec demoEnv demoEvents (Trace.start demoFresh)).map
        (fun t => (t.state.write_acknowledged_, t.state.write_sent_)) = some (3, 7) ∧
    (OnWriteAcknowledge demoEnv 1 true true demoFinal.state).map
        (fun r => (r.1.write_acknowledged_, r.1.write_sent_)) = some (1, 7) := by
  decide

/-- Claim C2, amended: for every stream state and every acknowledgement count
`N` that does not exceed `write_sent_`, `OnWriteAcknowledge` (which completes
whenever its assertion holds or assertions are compiled out, and the host
accepts a directly run flush or the flush is only scheduled) leaves
`write_acknowledged_ = N`, which is at most `write_sent_` as it was at the
call, and at most `write_sent_` after the call as long as the 64-bit counter
does not wrap; the counter after the call is at least its value before the
call if and only if `N` is. -/
theorem ack_in_range (env : Env) (N : Nat) (isMain hostOk : Bool) (s : JsFile)
    (h2 : N ≤ s.write_sent_) :
    (env.ndebug = true ∨ s.write_acknowledged_ ≤ s.write_sent_ →
      hostOk = true ∨ env.ndebug = true ∨ isMain = false →
      ∃ r, OnWriteAcknowledge env N isMain hostOk s = some r) ∧
    ∀ r, OnWriteAcknowledge env N isMain hostOk s = some r →
      r.1.write_acknowledged_ = N ∧
      r.1.write_acknowledged_ ≤ s.write_sent_ ∧
      (s.write_acknowledged_ ≤ r.1.write_acknowledged_ ↔ s.write_acknowledged_ ≤ N) ∧
      (s.write_sent_ + s.out_buf_.length < U64 →
        r.1.write_acknowledged_ ≤ r.1.write_sent_) := by
  constructor
  · intro ha hc
    have hun : OnWriteAcknowledge env N isMain hostOk s =
        PostWriteTask env false isMain hostOk { s with write_acknowledged_ := N } := by
      unfold OnWriteAcknowledge
      rcases ha with ha | ha <;> simp [ha]
    rw [hun]
    unfold PostWriteTask
    split
    · split
      · exact ⟨_, rfl⟩
      · rename_i hm
        simp only [Bool.false_or, Bool.not_eq_true', Bool.not_eq_false] at hm
        by_cases hz : writeCount env { s with write_acknowledged_ := N } = 0
        · rw [Write_zero env hostOk _ hz]
          exact ⟨_, rfl⟩
        · cases hostOk with
          | true =>
            rw [Write_accept env _ hz]
            exact ⟨_, rfl⟩
          | false =>
            rw [Write_reject env _ hz]
            rcases hc with hc | hc | hc
            · simp at hc
            · simp only [hc, if_true]
              exact ⟨_, rfl⟩
            · simp [hm] at hc
    · exact ⟨_, rfl⟩
  · rintro ⟨s1, log⟩ hr
    unfold OnWriteAcknowledge at hr
    split at hr
    · obtain ⟨e1, e2, -⟩ := PostWriteTask_effect env false isMain hostOk _ s1 log hr
      simp only at e1 e2 ⊢
      refine ⟨e1, by omega, by rw [e1], ?_⟩
      intro hno
      have hcnt := writeCount_le env { s with write_acknowledged_ := N }
      simp only at hcnt
      rcases e2 with e2 | e2
      · omega
      · rw [e1, e2]
        simp only [u64_add, U64] at *
        omega
    · simp at hr

/-- Witness for C2: an acknowledgement of 5 on the stream of the example run
(3 acknowledged, 7 sent). -/
theorem ack_in_range_witness :
    (OnWriteAcknowledge demoEnv 5 true true demoFinal.state).map
      (fun r => r.1.write_acknowledged_) = some 5 ∧
    demoFinal.state.write_acknowledged_ ≤ 5 := by
  have h := ack_in_range demoEnv 5 true true demoFinal.state (by decide)
  obtain ⟨r, hr⟩ := h.1 (Or.inr (by decide)) (Or.inl rfl)
  obtain ⟨e1, -, -, -⟩ := h.2 r hr
  refine ⟨?_, ?_⟩
  · rw [hr]
    simp only [Option.map_some', Option.some.injEq]
    exact e1
  · decide

/-- Claim C3 (flush): `JsFile::Write` with host window `W` computes
`n = min(size_t(write_acknowledged_ + W - write_sent_), |out_buf_|)`, which is
the plain `min (acknowledged + W - sent) |out_buf_|` whenever
`acknowledged ≤ sent ≤ acknowledged + W`; if `n = 0` nothing is handed to the
host and `write_sent_` and `out_buf_` are unchanged; otherwise exactly the
first `n` bytes of `out_buf_` are handed to the host, and if the host accepts,
`write_sent_` grows by `n` and `out_buf_` loses that prefix. Hence along every
run the bytes accepted by the host followed by the current `out_buf_` are the
initial `out_buf_` followed by everything queued since, and runs made of writes
and accepted flushes always complete. -/
theorem flush_sends_front (env : Env) (s : JsFile) :
    (s.write_acknowledged_ ≤ s.write_sent_ →
      s.write_sent_ ≤ s.write_acknowledged_ + env.window →
      s.write_sent_ < U64 → env.window < SIZE_MOD →
      writeCount env s =
        min (s.write_acknowledged_ + env.window - s.write_sent_) s.out_buf_.length) ∧
    (writeCount env s = 0 → ∀ hostOk,
      Write env hostOk s = some ({ s with out_task_sent_ := false }, [])) ∧
    (writeCount env s ≠ 0 → ∀ hostOk r, Write env hostOk s = some r →
      r.2 = [s.out_buf_.take (writeCount env s)]) ∧
    (writeCount env s ≠ 0 →
      Write env true s = some
        ({ s with out_task_sent_ := false,
                  write_sent_ := u64_add s.write_sent_ (writeCount env s),
                  out_buf_ := s.out_buf_.drop (writeCount env s) },
         [s.out_buf_.take (writeCount env s)])) ∧
    (∀ evs t, exec env evs (Trace.start s) = some t →
      t.transmitted ++ t.state.out_buf_ = s.out_buf_ ++ t.enqueued) ∧
    (∀ evs, (∀ e ∈ evs, (∃ buf, e = Event.write buf) ∨ e = Event.flush true) →
      ∃ t, exec env evs (Trace.start s) = some t) := by
  refine ⟨?_, ?_, ?_, ?_, ?_, ?_⟩
  · intro h1 h2 h3 h4
    simp only [writeCount, u64_sub, u64_add, U64, SIZE_MOD] at *
    omega
  · intro hz hostOk
    exact Write_zero env hostOk s hz
  · intro hz hostOk r hr
    cases hostOk with
    | true =>
      rw [Write_accept env s hz] at hr
      simp only [Option.some.injEq] at hr
      rw [← hr]
    | false =>
      rw [Write_reject env s hz] at hr
      split at hr
      · simp only [Option.some.injEq] at hr
        rw [← hr]
      · simp at hr
  · intro hz
    exact Write_accept env s hz
  · intro evs t h
    exact exec_conserve env evs (Trace.start s) t s.out_buf_ (by simp [Trace.start]) h
  · intro evs h
    exact exec_total env evs (Trace.start s) h

/-- Witness for C3: with a window of four and `"hello\n"` queued on a fresh open
pipe, an accepted flush hands `"hell"` to the host, advances `write_sent_` to 4
and leaves `"o\n"` queued. -/
theorem flush_sends_front_witness :
    Write demoEnv true { demoFresh with is_open_ := true, out_buf_ := [104, 101, 108, 108, 111, 10] }
      = some ({ demoFresh with is_open_ := true, write_sent_ := 4, out_buf_ := [111, 10] },
          [[104, 101, 108, 108]]) := by
  have h := (flush_sends_front demoEnv
    { demoFresh with is_open_ := true, out_buf_ := [104, 101, 108, 108, 111, 10] }).2.2.2.1
    (by decide)
  rw [h]
  decide

/-- Claim C4 (write never partial): on an open stream `JsFile::write` returns 0
and sets `*nwrote` to the full count, whatever the buffer, the count, the
window and the counters are; on a stream that is not open it returns `EIO` and
leaves the stream (output buffer, `write_sent_`, `write_acknowledged_` and
every other field) unchanged. -/
theorem write_all_or_error (env : Env) (buf : List CChar) (s : JsFile) :
    (s.is_open = true →
      ∃ r, write env buf s = some r ∧ r.ret = 0 ∧ r.nwrote = some buf.length) ∧
    (s.is_open = false →
      ∃ r, write env buf s = some r ∧ r.ret = EIO ∧ r.state = s ∧
        r.state.out_buf_ = s.out_buf_ ∧ r.state.write_sent_ = s.write_sent_ ∧
        r.state.write_acknowledged_ = s.write_acknowledged_) := by
  constructor
  · intro h
    exact ⟨_, write_open env buf s h, rfl, rfl⟩
  · intro h
    exact ⟨_, write_closed env buf s h, rfl, rfl, rfl, rfl, rfl⟩

/-- Witness for C4: a three-byte write on the open example terminal reports 3
bytes written although the window is 4 and the queue grows to 5 bytes, and on
the stream not yet open it returns `EIO`. -/
theorem write_all_or_error_witness :
    ((write demoEnv [97, 10, 98] demoTty).map (fun r => (r.ret, r.nwrote)) = some (0, some 3)) ∧
    ((write demoEnv [97, 10, 98] demoFresh).map (fun r => (r.ret, r.state)) =
      some ( EIO, demoFresh)) := by
  obtain ⟨r1, h1, h2, h3⟩ := (write_all_or_error demoEnv [97, 10, 98] demoTty).1 (by decide)
  obtain ⟨r2, g1, g2, g3, -⟩ := (write_all_or_error demoEnv [97, 10, 98] demoFresh).2 (by decide)
  rw [h1, g1]
  simp only [Option.map_some', h2, h3, g2, g3]
  decide

/-- Claim C5 (output NL to CRNL translation): a `write` of `d` on an open stream
whose output buffer is `q` leaves the output buffer `q ++ crnl d` (every `'\n'`
of `d` replaced by `"\r\n"`, `q` untouched) when the stream is a terminal and
both `OPOST` and `ONLCR` are set, and `q ++ d` when it is not a terminal or
either flag is clear. -/
theorem write_translates_new_region (env : Env) (q d : List CChar) (s : JsFile)
    (ho : s.is_open = true) (hq : s.out_buf_ = q) :
    ∃ r, write env d s = some r ∧
      (s.isatty = true → testFlag s.tio_.c_oflag OPOST = true →
        testFlag s.tio_.c_oflag ONLCR = true → r.state.out_buf_ = q ++ crnl d) ∧
      (s.isatty = false ∨ testFlag s.tio_.c_oflag OPOST = false ∨
        testFlag s.tio_.c_oflag ONLCR = false → r.state.out_buf_ = q ++ d) := by
  refine ⟨_, write_open env d s ho, ?_, ?_⟩
  · intro h1 h2 h3
    have hn : s.nlcrOn = true := by simp [nlcrOn, h1, h2, h3]
    obtain ⟨-, -, e3⟩ := PostWriteTask_post_counters env
      { s with out_buf_ := s.out_buf_ ++ (if s.nlcrOn then crnl d else d) }
    show (PostWriteTask_post env _).out_buf_ = _
    rw [e3]
    simp [hn, hq]
  · intro h
    have hn : s.nlcrOn = false := by
      rcases h with h | h | h <;> simp [nlcrOn, h]
    obtain ⟨-, -, e3⟩ := PostWriteTask_post_counters env
      { s with out_buf_ := s.out_buf_ ++ (if s.nlcrOn then crnl d else d) }
    show (PostWriteTask_post env _).out_buf_ = _
    rw [e3]
    simp [hn, hq]

/-- Witness for C5: on the example terminal, whose queue holds `"\n"`, writing
`"a\nb"` leaves `"\n" ++ "a\r\nb"` queued. -/
theorem write_translates_new_region_witness :
    (write demoEnv [97, 10, 98] demoTty).map (fun r => r.state.out_buf_) =
      some [10, 97, 13, 10, 98] := by
  obtain ⟨r, h1, h2, -⟩ := write_translates_new_region demoEnv [10] [97, 10, 98] demoTty
    (by decide) (by decide)
  rw [h1, Option.map_some', h2 (by decide) (by decide) (by decide)]
  decide

/-- Claim C6 (blocking read never returns 0 bytes on an open stream): for a
stream in blocking mode and a request of at least one byte, whenever `read`
returns with the stream open, it returns 0 (success) and `*nread` is positive,
the number of bytes stored. -/
theorem blocking_read_positive (count : Nat) (acts : List Action) (s : JsFile) (r : ReadResult)
    (hb : s.is_block = true) (hc : 1 ≤ count) (h : read count acts s = some r)
    (ho : r.state.is_open = true) :
    r.ret = 0 ∧ 0 < r.nread ∧ r.data.length = r.nread := by
  unfold JsFile.read at h
  split at h
  · simp at h
  · rename_i s1 acts1 reqs hw
    have hx := readWait_block_exit count acts s s1 acts1 reqs hb hw
    simp only at h
    have hopen : s1.is_open = true := by
      split at h <;>
        (simp only [Option.some.injEq] at h; rw [← h] at ho; simpa [is_open] using ho)
    have hne : s1.in_buf_ ≠ [] := by
      rcases hx with hx | hx
      · rw [hopen] at hx
        simp at hx
      · exact hx
    have hlen : 0 < (drain count s1.in_buf_).1.length := by
      rw [drain_eq]
      simp only [List.length_take]
      have : 0 < s1.in_buf_.length := List.length_pos.mpr hne
      omega
    split at h
    · rename_i hcond
      simp only [Bool.and_eq_true, decide_eq_true_eq] at hcond
      omega
    · simp only [Option.some.injEq] at h
      rw [← h]
      exact ⟨rfl, hlen, rfl⟩

/-- Witness for C6: a blocking read of up to 16 bytes on an open pipe is woken
by a delivery of `"hi"` and returns these two bytes. -/
theorem blocking_read_positive_witness :
    JsFile.read 16 [fun s => (OnRead [104, 105] s).1] { demoFresh with is_open_ := true } =
      some { ret := 0, nread := 2, data := [104, 105],
             state := { demoFresh with is_open_ := true, on_read_call_count_ := 1 },
             requests := [16] } ∧ 0 < (2 : Nat) := by
  have h : JsFile.read 16 [fun s => (OnRead [104, 105] s).1] { demoFresh with is_open_ := true } =
      some { ret := 0, nread := 2, data := [104, 105],
             state := { demoFresh with is_open_ := true, on_read_call_count_ := 1 },
             requests := [16] } := by decide
  exact ⟨h, (blocking_read_positive 16 _ _ _ (by decide) (by decide) h (by decide)).2.1⟩

/-- Counterexample to claim C7 as stated: the failing non-blocking `read` does
not report zero bytes read; it sets `*nread` to `(size_t)-1`. -/
theorem nonblocking_read_reports_minus_one :
    (JsFile.read 16 [] demoNonblock).map (fun r => (r.ret, r.nread, r.state.in_buf_)) =
      some ( EAGAIN, 4294967295, []) := by
  decide

/-- Claim C7, amended: on an open stream in non-blocking mode that is not a
canonical-mode terminal, with an empty input buffer and the read-ready flag
false, `read` asks the host for `count` bytes, does not wait, fails with
`EAGAIN`, stores no byte, sets `*nread` to `(size_t)-1` and leaves the stream,
with its empty input buffer, unchanged. -/
theorem nonblocking_read_EAGAIN (count : Nat) (acts : List Action) (s : JsFile)
    (ho : s.is_open = true) (hb : s.is_block = false)
    (hc : (s.isatty && testFlag s.tio_.c_lflag ICANON) = false)
    (he : s.in_buf_ = []) (hr : s.is_read_ready_ = false) :
    JsFile.read count acts s = some
      { ret := EAGAIN, nread := SIZE_MOD - 1, data := [], state := s, requests := [count] } := by
  have hw : readWait count acts s = some (s, acts, [count]) := by
    unfold readWait
    simp [ho, hb, hc, he, hr]
  have hs : ({ s with in_buf_ := [] } : JsFile) = s := by
    cases s
    simp only at he
    simp [he]
  unfold JsFile.read
  rw [hw]
  simp only [he, drain_eq, List.take_nil, List.drop_nil, List.length_nil, hs, hb, ho]
  simp

/-- Witness for C7: the non-blocking example pipe. -/
theorem nonblocking_read_EAGAIN_witness :
    JsFile.read 16 [] demoNonblock = some
      { ret := EAGAIN, nread := 4294967295, data := [], state := demoNonblock,
        requests := [16] } :=
  nonblocking_read_EAGAIN 16 [] demoNonblock (by decide) (by decide) (by decide)
    (by decide) (by decide)

/-- Counterexample to claim C8 as stated: `read` on a stream that is not open
returns 0 (success, zero bytes: end of file), not `EIO`, in blocking and in
non-blocking mode. -/
theorem read_closed_is_not_EIO :
    (JsFile.read 16 [] demoFresh).map (fun r => (r.ret, r.nread)) = some (0, 0) ∧
    (JsFile.read 16 [] demoClosedNonblock).map (fun r => (r.ret, r.nread)) = some (0, 0) ∧
    demoFresh.is_open = false ∧ demoFresh.is_block = true ∧
    demoClosedNonblock.is_open = false ∧ demoClosedNonblock.is_block = false ∧
    (0 : Int) ≠ EIO := by
  decide

/-- Claim C8, amended: on a stream that is not open (never opened or already
closed), in blocking or non-blocking mode, `read` never waits and never fails:
it returns 0 (success) with the first `min count |in_buf_|` bytes still
buffered, which is zero bytes (end of file) when the input buffer is empty; it
asks the host for nothing. -/
theorem read_closed_drains (count : Nat) (acts : List Action) (s : JsFile)
    (h : s.is_open = false) :
    JsFile.read count acts s = some
      { ret := 0, nread := min count s.in_buf_.length, data := s.in_buf_.take count,
        state := { s with in_buf_ := s.in_buf_.drop count }, requests := [] } :=
  read_closed count acts s h

/-- Witness for C8: a closed stream with `"ab\n"` left in its input buffer
hands out `"ab"` to a read of two bytes. -/
theorem read_closed_drains_witness :
    JsFile.read 2 [] { demoFresh with in_buf_ := [97, 98, 10] } = some
      { ret := 0, nread := 2, data := [97, 98],
        state := { demoFresh with in_buf_ := [10] }, requests := [] } :=
  read_closed_drains 2 [] { demoFresh with in_buf_ := [97, 98, 10] } (by decide)

/-- Counterexample to claim C9 as stated: with `ICANON` and `ECHOE` set and
`ECHO` clear, the erase character 127 arriving on the buffer `"ab"` removes
`'b'` and echoes nothing; and with the settings of `InitTerminal` and `'\r'` as
erase character, an arriving `'\r'` is turned into `'\n'` by `ICRNL`, buffered
and echoed, not handled as an erase. -/
theorem erase_echo_needs_ECHO :
    (OnRead [127] demoTtyNoEcho).1.in_buf_ = [97] ∧ (OnRead [127] demoTtyNoEcho).2 = [] ∧
    (OnRead [13] demoTtyEraseCR).1.in_buf_ = [97, 98, 10] ∧
    (OnRead [13] demoTtyEraseCR).2 = [[10]] := by
  decide

/-- Claim C9, amended: on a terminal with `ICANON` and `ECHOE` set, an arriving
character equal to `c_cc[VERASE]` that the input flags leave as it is (always
the case unless it is `'\r'` or `'\n'`) is never buffered; if the input buffer
is empty or ends in `'\n'` the buffer is unchanged and nothing is echoed;
otherwise the last byte of the buffer is removed, and the three bytes
`0x08 0x20 0x08` are echoed if `ECHO` is set, nothing if it is clear. -/
theorem erase_removes_last (c : CChar) (s : JsFile) (hat : s.isatty = true)
    (hcanon : testFlag s.tio_.c_lflag ICANON = true)
    (hE : testFlag s.tio_.c_lflag ECHOE = true)
    (hc : c = (s.tio_.c_cc_VERASE : Int)) (hx : inputXlate s.tio_ c = some c) :
    (s.in_buf_ = [] ∨ s.in_buf_.getLast? = some NL →
      OnRead [c] s =
        ({ s with on_read_call_count_ := u64_add s.on_read_call_count_ 1 }, [])) ∧
    (s.in_buf_ ≠ [] → s.in_buf_.getLast? ≠ some NL →
      OnRead [c] s =
        ({ s with in_buf_ := s.in_buf_.dropLast,
                  on_read_call_count_ := u64_add s.on_read_call_count_ 1 },
          if testFlag s.tio_.c_lflag ECHO then [[8, 32, 8]] else [])) := by
  have h := OnRead_char_erase c s [] hcanon hE hc hx
  constructor
  · intro h1
    rw [OnRead_single c s hat, h, if_pos h1]
  · intro h1 h2
    have h3 : ¬ (s.in_buf_ = [] ∨ s.in_buf_.getLast? = some NL) := by
      rintro (h3 | h3)
      · exact h1 h3
      · exact h2 h3
    rw [OnRead_single c s hat, h, if_neg h3]
    simp only [List.nil_append]

/-- Witness for C9: with the settings of `InitTerminal`, buffer `"ab"` and an
arriving erase character give buffer `"a"` and the echo `0x08 0x20 0x08`; on
the empty buffer the erase character changes nothing. -/
theorem erase_removes_last_witness :
    ((OnRead [127] demoTtyIn).1.in_buf_ = [97] ∧ (OnRead [127] demoTtyIn).2 = [[8, 32, 8]]) ∧
    ((OnRead [127] { demoTtyIn with in_buf_ := [] }).1.in_buf_ = [] ∧
      (OnRead [127] { demoTtyIn with in_buf_ := [] }).2 = []) := by
  have h1 := (erase_removes_last 127 demoTtyIn (by decide) (by decide) (by decide)
    (by decide) (by decide)).2 (by decide) (by decide)
  have h2 := (erase_removes_last 127 { demoTtyIn with in_buf_ := [] } (by decide) (by decide)
    (by decide) (by decide) (by decide)).1 (Or.inl rfl)
  rw [h1, h2]
  decide

/-- Counterexample to claim C10 as stated: with `ICANON` set and `ECHOE` clear,
the erase character 127 arriving on the buffer `"ab"` is not dropped: the
buffer becomes `"ab\x7f"`. -/
theorem erase_without_ECHOE_is_buffered :
    (OnRead [127] demoTtyNoEchoE).1.in_buf_ = [97, 98, 127] ∧
    (OnRead [127] demoTtyNoEchoE).2 = [] := by
  decide

/-- Claim C10, amended: on a terminal with `ICANON` set and `ECHOE` clear, an
arriving character equal to `c_cc[VERASE]` that the input flags leave as it is
is not handled as an erase: it is appended to the input buffer, whose previous
content is unchanged, and it is echoed exactly when `ECHO` is set, or `ECHONL`
is set and the character is `'\n'`. -/
theorem erase_without_ECHOE_appends (c : CChar) (s : JsFile) (hat : s.isatty = true)
    (hcanon : testFlag s.tio_.c_lflag ICANON = true)
    (hE : testFlag s.tio_.c_lflag ECHOE = false)
    (hc : c = (s.tio_.c_cc_VERASE : Int)) (hx : inputXlate s.tio_ c = some c) :
    OnRead [c] s =
      ({ s with in_buf_ := s.in_buf_ ++ [c],
                on_read_call_count_ := u64_add s.on_read_call_count_ 1 },
        if (testFlag s.tio_.c_lflag ECHO ||
            (testFlag s.tio_.c_lflag ECHONL && decide (c = NL))) = true
        then [[c]] else []) := by
  have _ := hc
  rw [OnRead_single c s hat, OnRead_char_no_echoe c s [] hcanon hE hx]
  simp only [List.nil_append]

/-- Witness for C10: the terminal of the counterexample. -/
theorem erase_without_ECHOE_appends_witness :
    OnRead [127] demoTtyNoEchoE =
      ({ demoTtyNoEchoE with in_buf_ := [97, 98, 127], on_read_call_count_ := 1 }, []) := by
  rw [erase_without_ECHOE_appends 127 demoTtyNoEchoE (by decide) (by decide) (by decide)
    (by decide) (by decide)]
  decide

/-- Counterexample to claim C11 as stated: with the settings of `InitTerminal`
(`ICRNL` set, `IGNCR` clear, `ICANON` and `ECHOE` set) and `'\n'` as erase
character, an arriving `'\r'` on the buffer `"ab"` is turned into `'\n'`, which
is then handled as an erase: the buffer becomes `"a"`, no `'\n'` is stored. -/
theorem translated_cr_can_erase :
    (OnRead [13] demoTtyEraseNL).1.in_buf_ = [97] ∧
    (OnRead [13] demoTtyEraseNL).2 = [[8, 32, 8]] ∧
    testFlag demoTtyEraseNL.tio_.c_iflag ICRNL = true ∧
    testFlag demoTtyEraseNL.tio_.c_iflag IGNCR = false := by
  decide

/-- Claim C11, amended: on a terminal stream an arriving `'\r'` is dropped (not
buffered, not echoed) when `IGNCR` is set; otherwise it is appended to the
input buffer as `'\n'` when `ICRNL` is set (whatever `INLCR` is) and as `'\r'`
when neither is set; an arriving `'\n'` is appended as `'\r'` when `INLCR` is
set; the three appends hold unless the translated character is handled as an
erase (`ICANON` and `ECHOE` set and the character equal to `c_cc[VERASE]`). -/
theorem input_crlf_rules (s : JsFile) (hat : s.isatty = true) :
    (testFlag s.tio_.c_iflag IGNCR = true →
      OnRead [CR] s =
        ({ s with on_read_call_count_ := u64_add s.on_read_call_count_ 1 }, [])) ∧
    (testFlag s.tio_.c_iflag IGNCR = false → testFlag s.tio_.c_iflag ICRNL = true →
      erases s.tio_ NL = false →
      (OnRead [CR] s).1.in_buf_ = s.in_buf_ ++ [NL]) ∧
    (testFlag s.tio_.c_iflag IGNCR = false → testFlag s.tio_.c_iflag ICRNL = false →
      erases s.tio_ CR = false →
      (OnRead [CR] s).1.in_buf_ = s.in_buf_ ++ [CR]) ∧
    (testFlag s.tio_.c_iflag INLCR = true → erases s.tio_ CR = false →
      (OnRead [NL] s).1.in_buf_ = s.in_buf_ ++ [CR]) := by
  refine ⟨?_, ?_, ?_, ?_⟩
  · intro h
    rw [OnRead_single CR s hat, OnRead_char_igncr s [] h]
  · intro h1 h2 he
    have hx : inputXlate s.tio_ CR = some NL := by simp [inputXlate, h1, h2]
    rw [OnRead_single CR s hat, OnRead_char_store CR NL s [] hx he]
  · intro h1 h2 he
    have hx : inputXlate s.tio_ CR = some CR := by simp [inputXlate, h1, h2]
    rw [OnRead_single CR s hat, OnRead_char_store CR CR s [] hx he]
  · intro h1 he
    have hx : inputXlate s.tio_ NL = some CR := by
      simp [inputXlate, h1, NL, CR]
    rw [OnRead_single NL s hat, OnRead_char_store NL CR s [] hx he]

/-- Witness for C11: with the settings of `InitTerminal` (`ICRNL` set, `IGNCR`
clear, erase character 127) an arriving `'\r'` on the buffer `"ab"` is stored
as `'\n'`. -/
theorem input_crlf_rules_witness :
    (OnRead [CR] demoTtyIn).1.in_buf_ = [97, 98, 10] := by
  rw [(input_crlf_rules demoTtyIn (by decide)).2.1 (by decide) (by decide) (by decide)]
  decide

/-- Claim C12 (echo rule): on a terminal stream, an arriving byte whose CR/LF
translation is `c` and which is not handled as an erase is always appended to
the input buffer as `c`, and the single byte `c` is echoed if and only if
`ECHO` is set, or `ICANON` and `ECHONL` are set and `c` is `'\n'`; otherwise
nothing is echoed. This holds for the loop body with any echo log so far and
for a delivery of that single byte. -/
theorem echo_rule (c0 c : CChar) (s : JsFile) (log : Log) (hat : s.isatty = true)
    (hx : inputXlate s.tio_ c0 = some c) (he : erases s.tio_ c = false) :
    OnRead_char (s, log) c0 =
      ({ s with in_buf_ := s.in_buf_ ++ [c] },
        if (testFlag s.tio_.c_lflag ECHO ||
            (testFlag s.tio_.c_lflag ICANON && testFlag s.tio_.c_lflag ECHONL &&
              decide (c = NL))) = true
        then log ++ [[c]] else log) ∧
    OnRead [c0] s =
      ({ s with in_buf_ := s.in_buf_ ++ [c],
                on_read_call_count_ := u64_add s.on_read_call_count_ 1 },
        if (testFlag s.tio_.c_lflag ECHO ||
            (testFlag s.tio_.c_lflag ICANON && testFlag s.tio_.c_lflag ECHONL &&
              decide (c = NL))) = true
        then [[c]] else []) := by
  have h := OnRead_char_store c0 c s
  simp only [echoRule] at h
  refine ⟨h log hx he, ?_⟩
  rw [OnRead_single c0 s hat, h [] hx he]
  simp only [List.nil_append]

/-- Witness for C12: with the settings of `InitTerminal` (`ECHO` set) the byte
`'x'` is buffered and echoed; in raw mode it is buffered and not echoed. -/
theorem echo_rule_witness :
    (OnRead [120] demoTtyIn).1.in_buf_ = [97, 98, 120] ∧ (OnRead [120] demoTtyIn).2 = [[120]] ∧
    (OnRead [120] demoTtyRaw).1.in_buf_ = [97, 98, 120] ∧ (OnRead [120] demoTtyRaw).2 = [] := by
  rw [(echo_rule 120 120 demoTtyIn [] (by decide) (by decide) (by decide)).2,
    (echo_rule 120 120 demoTtyRaw [] (by decide) (by decide) (by decide)).2]
  decide

/-- Claim C13 (FIFO round trip on a non-terminal stream): `OnRead` with bytes
`d` appends `d` unmodified to the input buffer, whatever the terminal flags
are; the copy loop of `read` with request size `count` hands out exactly the
first `min count |b|` bytes of the input buffer `b` in order and leaves the
remaining suffix. Hence along every sequence of deliveries and reads the bytes
read followed by the bytes still buffered are the bytes buffered at the start
followed by everything delivered, the bytes read are an initial part of the
bytes delivered when the buffer starts empty, and on a non-blocking stream
whose read-ready flag is clear every such sequence completes. -/
theorem fifo_round_trip (s : JsFile) (hat : s.isatty = false) :
    (∀ d, OnRead d s =
      ({ s with in_buf_ := s.in_buf_ ++ d,
                on_read_call_count_ := u64_add s.on_read_call_count_ 1 }, [])) ∧
    (∀ count b, drain count b = (b.take count, b.drop count) ∧
      (drain count b).1.length = min count b.length) ∧
    (∀ evs t, inExec evs (InTrace.start s) = some t →
      t.returned ++ t.state.in_buf_ = s.in_buf_ ++ t.delivered) ∧
    (∀ evs t, s.in_buf_ = [] → inExec evs (InTrace.start s) = some t →
      t.returned <+: t.delivered) ∧
    (∀ evs, s.is_block = false → s.is_read_ready_ = false →
      ∃ t, inExec evs (InTrace.start s) = some t) := by
  refine ⟨fun d => OnRead_nontty d s hat, ?_, ?_, ?_, ?_⟩
  · intro count b
    rw [drain_eq]
    exact ⟨rfl, by simp⟩
  · intro evs t h
    exact inExec_conserve evs (InTrace.start s) t s.in_buf_ hat (by simp [InTrace.start]) h
  · intro evs t he h
    have := inExec_conserve evs (InTrace.start s) t s.in_buf_ hat (by simp [InTrace.start]) h
    rw [he, List.nil_append] at this
    exact ⟨t.state.in_buf_, this⟩
  · intro evs hb hr
    exact inExec_total evs (InTrace.start s) hat hb hr

/-- Witness for C13: on the closed example pipe, `"hi"` and `"!\n"` are
delivered, a read of 3 hands out `"hi!"` and a read of 5 the remaining `"\n"`. -/
theorem fifo_round_trip_witness :
    (inExec demoPipeEvents (InTrace.start demoFresh)).map
        (fun t => (t.returned, t.state.in_buf_, t.delivered)) =
      some ([104, 105, 33, 10], [], [104, 105, 33, 10]) ∧
    ([104, 105, 33, 10] : List CChar) ++ [] = demoFresh.in_buf_ ++ [104, 105, 33, 10] := by
  have h : inExec demoPipeEvents (InTrace.start demoFresh) =
      some { state := { demoFresh with on_read_call_count_ := 2 },
             delivered := [104, 105, 33, 10], returned := [104, 105, 33, 10] } := by decide
  have h2 := (fifo_round_trip demoFresh (by decide)).2.2.1 demoPipeEvents _ h
  rw [h]
  exact ⟨by decide, h2⟩

/-- Counterexample to claim C14 as stated: the claimed equivalence for
`is_write_ready` fails where the unsigned arithmetic of the code wraps. With 5
acknowledged and 0 sent (the state `OnWriteAcknowledge(5)` leaves on a fresh
stream), nothing queued and a window of 4, `sent - acknowledged` is below the
window whether read as an integer (-5) or truncated at zero, yet
`is_write_ready` is false; with `4294967295` bytes in flight, one byte queued
and a window of `4294967295`, the sum `4294967296` is not below the window, yet
`is_write_ready` is true. -/
theorem write_ready_wraps :
    (OnWriteAcknowledge demoEnv 5 true true demoFresh).map (fun r => r.1) = some demoAckAhead ∧
    demoAckAhead.is_write_ready demoEnv = false ∧
    ((demoAckAhead.write_sent_ : Int) - demoAckAhead.write_acknowledged_ +
        demoAckAhead.out_buf_.length < demoEnv.window) ∧
    (demoAckAhead.write_sent_ - demoAckAhead.write_acknowledged_ +
        demoAckAhead.out_buf_.length < demoEnv.window) ∧
    demoWindowFull.is_write_ready demoWideEnv = true ∧
    ¬ (demoWindowFull.write_sent_ - demoWindowFull.write_acknowledged_ +
        demoWindowFull.out_buf_.length < demoWideEnv.window) := by
  decide

/-- Claim C14, amended: `JsFile::is_read_ready` is true exactly when the
read-ready flag is set or the input buffer is non-empty;
`JsSocket::is_read_ready` is true exactly when the input buffer is non-empty,
whatever the flag is; `is_write_ready` is true exactly when
`(sent - acknowledged) + |out_buf_| < window`, for every state in which
`acknowledged ≤ sent` and that sum is below `2 ^ 32`, so that the unsigned
arithmetic of the code does not wrap. The three are functions of the state
alone and return only a truth value. -/
theorem readiness_predicates (env : Env) (s : JsFile) :
    (s.is_socket = false →
      (s.is_read_ready = true ↔ (s.is_read_ready_ = true ∨ s.in_buf_ ≠ []))) ∧
    (s.is_socket = true → (s.is_read_ready = true ↔ s.in_buf_ ≠ [])) ∧
    (s.write_acknowledged_ ≤ s.write_sent_ → s.write_sent_ < U64 →
      (s.write_sent_ - s.write_acknowledged_) + s.out_buf_.length < SIZE_MOD →
      (s.is_write_ready env = true ↔
        (s.write_sent_ - s.write_acknowledged_) + s.out_buf_.length < env.window)) := by
  refine ⟨?_, ?_, ?_⟩
  · intro h
    simp [JsFile.is_read_ready, h, List.isEmpty_iff]
  · intro h
    simp [JsFile.is_read_ready, h, List.isEmpty_iff]
  · intro h1 h2 h3
    simp only [JsFile.is_write_ready, decide_eq_true_eq, u64_sub, U64, SIZE_MOD] at *
    omega

/-- Witness for C14: on the stream of the example run (7 sent, 3 acknowledged,
nothing queued, window 4) the stream is not write-ready; with a window of 5 it
is. -/
theorem readiness_predicates_witness :
    demoFinal.state.is_write_ready demoEnv = false ∧
    demoFinal.state.is_write_ready { demoEnv with window := 5 } = true := by
  have h1 := (readiness_predicates demoEnv demoFinal.state).2.2 (by decide) (by decide)
    (by decide)
  have h2 := (readiness_predicates { demoEnv with window := 5 } demoFinal.state).2.2
    (by decide) (by decide) (by decide)
  constructor
  · rw [Bool.eq_false_iff]
    intro h
    have := h1.1 h
    revert this
    decide
  · exact h2.2 (by decide)

/-- Claim C16 (null stream): for every `DevNull`, buffer and count, `read`
returns 0 with `*nread = 0` and `write` returns 0 with `*nwrote = count`,
neither changing the stream (descriptor, flags or reference count);
`DevNullHandler::open` always returns a stream, carrying the given descriptor
and flags. -/
theorem devnull_read_write (s : DevNull) (buf : List CChar) (count : Nat) (fd : Int)
    (pathname : List CChar) (oflag : Nat) :
    DevNull.read count s = (0, 0, s) ∧
    DevNull.write buf s = (0, buf.length, s) ∧
    (DevNull.read count s).2.2.fd_ = s.fd_ ∧ (DevNull.read count s).2.2.oflag_ = s.oflag_ ∧
    (DevNull.write buf s).2.2.fd_ = s.fd_ ∧ (DevNull.write buf s).2.2.oflag_ = s.oflag_ ∧
    ∃ d, DevNullHandler.open fd pathname oflag = some d ∧ d.fd_ = fd ∧ d.oflag_ = oflag :=
  ⟨rfl, rfl, rfl, rfl, rfl, rfl, _, rfl, rfl, rfl⟩

/-- Claim C15 (single-slot backpressure): `accept()` with an empty slot returns
0 and changes nothing; `accept()` with a pending connection returns it, clears
the slot and schedules exactly one `Accept(PP_OK, NULL)`, which arms exactly one
host accept when it runs; a step arms a host accept only if it is a listen
completion with result `PP_OK` or the run of such a scheduled callback, and a
callback is scheduled only by an `accept()` that has just emptied the slot.
Along every sequence of events of a freshly constructed listening stream at
most one of these is pending: a listen in progress, an armed host accept, a
connection in the slot, a scheduled re-arm. Hence while a connection is in the
slot no host accept is armed and no further connection can be accepted. -/
theorem single_slot_backpressure (env : Env) (fd : Int) (oflag : Nat) :
    (∀ l : Listener, l.sock.resource_ = 0 → l.accept = (0, l)) ∧
    (∀ l : Listener, l.sock.resource_ ≠ 0 →
      l.accept = (l.sock.resource_,
        { l with sock := { l.sock with resource_ := 0 }, scheduled := l.scheduled + 1 }) ∧
      l.accept.2.armed = l.armed ∧
      ∀ hostRes, env.ndebug = true ∨ l.sock.socket_ = true →
        ∃ l1, lStep env (.runAccept hostRes) l.accept.2 = some l1 ∧
          l1.armed = l.armed + 1 ∧ l1.scheduled = l.scheduled ∧ l1.sock.resource_ = 0) ∧
    (∀ e l l1, lStep env e l = some l1 →
      (l.armed < l1.armed →
        (∃ hostRes, e = .listenDone PP_OK hostRes) ∨ (∃ hostRes, e = .runAccept hostRes)) ∧
      (l.scheduled < l1.scheduled →
        e = .accept ∧ l.sock.resource_ ≠ 0 ∧ l1.sock.resource_ = 0)) ∧
    (∀ evs l, lExec env evs (Listener.init fd oflag) = some l →
      l.pending ≤ 1 ∧
      (l.sock.resource_ ≠ 0 →
        l.armed = 0 ∧ ∀ conn, lStep env (.connection conn) l = none)) := by
  refine ⟨?_, ?_, ?_, ?_⟩
  · intro l h
    simp [Listener.accept, h]
  · intro l h
    refine ⟨by simp [Listener.accept, h], by simp [Listener.accept, h], ?_⟩
    intro hostRes hs
    have hs2 : (env.ndebug || l.sock.socket_) = true := by
      rcases hs with hs | hs <;> simp [hs]
    simp [Listener.accept, h, lStep, Listener.Accept, hs2]
  · intro e l l1 h
    cases e with
    | listen addrOk hostRes =>
      simp only [lStep, Listener.Listen] at h
      split at h
      · simp at h
      · split at h
        · split at h <;>
            (simp only [Option.some.injEq] at h
             subst h
             exact ⟨fun hc => absurd hc (lt_irrefl _), fun hc => absurd hc (lt_irrefl _)⟩)
        · simp at h
    | listenDone result hostRes =>
      simp only [lStep, Listener.Accept] at h
      split at h
      · split at h
        · simp only [Option.some.injEq] at h
          subst h
          by_cases hr : result = PP_OK
          · subst hr
            exact ⟨fun _ => Or.inl ⟨hostRes, rfl⟩, fun hc => by simp at hc⟩
          · exact ⟨fun hc => by simp [hr] at hc, fun hc => by simp [hr] at hc⟩
        · simp at h
      · simp at h
    | runAccept hostRes =>
      simp only [lStep, Listener.Accept] at h
      split at h
      · split at h
        · simp only [Option.some.injEq] at h
          subst h
          refine ⟨fun _ => Or.inr ⟨hostRes, rfl⟩, fun hc => ?_⟩
          simp at hc
          omega
        · simp at h
      · simp at h
    | connection conn =>
      simp only [lStep, Listener.OnAccept] at h
      split at h
      · split at h
        · simp only [Option.some.injEq] at h
          subst h
          refine ⟨fun hc => ?_, fun hc => ?_⟩
          · simp only at hc
            omega
          · simp at hc
        · simp at h
      · simp at h
    | accept =>
      simp only [lStep, Option.some.injEq] at h
      subst h
      by_cases hr : l.sock.resource_ = 0
      · simp [Listener.accept, hr]
      · simp [Listener.accept, hr]
  · intro evs l h
    have hinv := lExec_pending env evs (Listener.init fd oflag) l
      (by simp [Listener.pending, Listener.init, TCPServerSocket.init]) h
    refine ⟨hinv.1, ?_⟩
    intro hr
    have h1 := hinv.1
    simp only [Listener.pending, hr, if_false] at h1
    have ha : l.armed = 0 := by omega
    refine ⟨ha, ?_⟩
    intro conn
    simp [lStep, ha]

/-- Witness for C15: after a listen, its completion and a first connection the
slot holds connection 41 and no host accept is armed; `accept()` returns 41 and
the scheduled callback arms the next host accept. -/
theorem single_slot_backpressure_witness :
    lExec demoEnv [.listen true (-1), .listenDone 0 (-1), .connection 41]
        (Listener.init 5 0) =
      some { sock := { fd_ := 5, oflag_ := 0, socket_ := true, resource_ := 41 },
             armed := 0, scheduled := 0, listening := false, pres := 0 } ∧
    lStep demoEnv (.connection 42)
      { sock := { fd_ := 5, oflag_ := 0, socket_ := true, resource_ := 41 },
        armed := 0, scheduled := 0, listening := false, pres := 0 } = none ∧
    (lExec demoEnv demoListenEvents (Listener.init 5 0)).map (fun l => (l.armed, l.sock.resource_))
      = some (1, 0) := by
  have h : lExec demoEnv [.listen true (-1), .listenDone 0 (-1), .connection 41]
        (Listener.init 5 0) =
      some { sock := { fd_ := 5, oflag_ := 0, socket_ := true, resource_ := 41 },
             armed := 0, scheduled := 0, listening := false, pres := 0 } := by decide
  exact ⟨h, ((single_slot_backpressure demoEnv 5 0).2.2.2 _ _ h).2 (by decide) |>.2 42,
    by decide⟩

/-- Counterexample to claim C17 as stated: `F_SETFL` replaces the whole word
of open-flags. On a null stream, a host-brokered stream and a listening stream
constructed with flags `2` (`O_RDWR`), `F_SETFL` with argument `O_NONBLOCK`
leaves the flags `O_NONBLOCK` alone: the bit `2` is cleared. -/
theorem setfl_replaces_all_flags :
    (DevNull.fcntl F_SETFL O_NONBLOCK (DevNull.init 3 2)).2.oflag_ = O_NONBLOCK ∧
    (JsFile.fcntl F_SETFL O_NONBLOCK (JsFile.init 3 2 JsFile.InitTerminal)).2.oflag_
      = O_NONBLOCK ∧
    (TCPServerSocket.fcntl F_SETFL O_NONBLOCK (TCPServerSocket.init 3 2)).2.oflag_
      = O_NONBLOCK ∧
    testFlag 2 2 = true ∧ testFlag O_NONBLOCK 2 = false := by
  decide

/-- Claim C17, amended: on every stream variant (`DevNull`, `JsFile`,
`TCPServerSocket`) `fcntl` with `F_GETFL` returns the open-flags and leaves the
state unchanged; `F_SETFL` with argument `v` returns 0 and replaces the whole
word of open-flags by `v`, leaving every other field unchanged; any other
command returns -1 and leaves the state unchanged. -/
theorem fcntl_all_variants (cmd : Int) (v : Nat) (d : DevNull) (s : JsFile)
    (t : TCPServerSocket) :
    (cmd = F_GETFL →
      DevNull.fcntl cmd v d = ((d.oflag_ : Int), d) ∧
      JsFile.fcntl cmd v s = ((s.oflag_ : Int), s) ∧
      TCPServerSocket.fcntl cmd v t = ((t.oflag_ : Int), t)) ∧
    (cmd = F_SETFL →
      DevNull.fcntl cmd v d = (0, { d with oflag_ := v }) ∧
      JsFile.fcntl cmd v s = (0, { s with oflag_ := v }) ∧
      TCPServerSocket.fcntl cmd v t = (0, { t with oflag_ := v })) ∧
    (cmd ≠ F_GETFL → cmd ≠ F_SETFL →
      DevNull.fcntl cmd v d = (-1, d) ∧
      JsFile.fcntl cmd v s = (-1, s) ∧
      TCPServerSocket.fcntl cmd v t = (-1, t)) := by
  refine ⟨?_, ?_, ?_⟩
  · intro h
    simp [DevNull.fcntl, JsFile.fcntl, TCPServerSocket.fcntl, h]
  · intro h
    have h2 : F_SETFL ≠ F_GETFL := by decide
    simp [DevNull.fcntl, JsFile.fcntl, TCPServerSocket.fcntl, h, h2]
  · intro h1 h2
    simp [DevNull.fcntl, JsFile.fcntl, TCPServerSocket.fcntl, h1, h2]

/-- Witness for C17: `F_SETFL` with `O_NONBLOCK` on the example pipe, and an
unknown command. -/
theorem fcntl_all_variants_witness :
    JsFile.fcntl F_SETFL O_NONBLOCK demoFresh = (0, { demoFresh with oflag_ := O_NONBLOCK }) ∧
    JsFile.fcntl 7 0 demoFresh = (-1, demoFresh) :=
  ⟨((fcntl_all_variants F_SETFL O_NONBLOCK (DevNull.init 3 0) demoFresh
      (TCPServerSocket.init 3 0)).2.1 rfl).2.1,
   ((fcntl_all_variants 7 0 (DevNull.init 3 0) demoFresh
      (TCPServerSocket.init 3 0)).2.2 (by decide) (by decide)).2.1⟩

/-- Claim C18 (close is idempotent): for the null stream, `close` after `close`
changes nothing; for an open host-brokered stream with descriptor at least 3,
once `close` has returned (the driver has confirmed the closure) the stream is
not open and its descriptor is -1, and a further `close` returns at once and
changes nothing; `close` on a stream that is not open changes nothing. -/
theorem close_idempotent (env : Env) (d : DevNull) (acts : List Action) (s : JsFile) :
    DevNull.close (DevNull.close d) = DevNull.close d ∧
    (s.is_open = false → JsFile.close env acts s = some (s, acts)) ∧
    (s.is_open = true → 3 ≤ s.fd_ → ∀ s1 acts1, JsFile.close env acts s = some (s1, acts1) →
      s1.is_open = false ∧ s1.fd_ = -1 ∧
      ∀ acts2, JsFile.close env acts2 s1 = some (s1, acts2)) := by
  refine ⟨rfl, ?_, ?_⟩
  · intro h
    simp [JsFile.close, h]
  · intro ho hfd s1 acts1 h
    unfold JsFile.close at h
    simp only [ho, if_true] at h
    split at h
    · split at h
      · simp at h
      · split at h
        · simp at h
        · rename_i s3 acts3 hw
          simp only [Option.some.injEq, Prod.mk.injEq] at h
          obtain ⟨rfl, -⟩ := h
          have hx := waitWhile_exit _ _ _ _ _ hw
          simp only at hx
          have hcl : ({ s3 with fd_ := -1 } : JsFile).is_open = false := hx
          refine ⟨hcl, rfl, ?_⟩
          intro acts2
          simp [JsFile.close, hcl]
    · simp at h

/-- Witness for C18: the open example pipe on descriptor 5, whose flush task
completes and whose closure the driver then confirms. -/
theorem close_idempotent_witness :
    JsFile.close demoEnv [fun s => { s with out_task_sent_ := false }, OnClose] demoOpenPipe =
      some ({ demoFresh with fd_ := -1 }, []) ∧
    JsFile.close demoEnv [] { demoFresh with fd_ := -1 } = some ({ demoFresh with fd_ := -1 }, []) := by
  have h : JsFile.close demoEnv [fun s => { s with out_task_sent_ := false }, OnClose]
      demoOpenPipe = some ({ demoFresh with fd_ := -1 }, []) := rfl
  exact ⟨h, ((close_idempotent demoEnv (DevNull.init 3 0) _ demoOpenPipe).2.2 (by decide)
    (by decide) _ _ h).2.2 []⟩

/-- Claim C19 (canonical-mode read waits for a full line): for a terminal
stream with `ICANON` set, the settings staying so while the call waits,
whenever the wait phase of `read` ends with the stream open the input buffer
holds a `'\n'` at the moment the copy loop starts; so the copy loop starts on a
buffer without `'\n'` only if the stream is closed. For `read` itself: what it
hands out followed by what it leaves buffered then contains a `'\n'`. -/
theorem canonical_read_needs_line (count : Nat) (acts : List Action) (s : JsFile)
    (hat : s.isatty = true) (hc : testFlag s.tio_.c_lflag ICANON = true)
    (hkeep : ∀ a ∈ acts, ∀ t : JsFile,
      (t.isatty = true ∧ testFlag t.tio_.c_lflag ICANON = true) →
      ((a t).isatty = true ∧ testFlag (a t).tio_.c_lflag ICANON = true)) :
    (∀ s1 acts1 reqs, readWait count acts s = some (s1, acts1, reqs) →
      (s1.is_open = true → NL ∈ s1.in_buf_) ∧ (NL ∉ s1.in_buf_ → s1.is_open = false)) ∧
    (∀ r, JsFile.read count acts s = some r → r.state.is_open = true →
      NL ∈ r.data ++ r.state.in_buf_) := by
  have key : ∀ s1 acts1 reqs, readWait count acts s = some (s1, acts1, reqs) →
      s1.is_open = false ∨ NL ∈ s1.in_buf_ := by
    intro s1 acts1 reqs h
    unfold readWait at h
    simp only at h
    split at h
    · simp at h
    · rename_i s2 acts2 hw
      have hP : s2.isatty = true ∧ testFlag s2.tio_.c_lflag ICANON = true := by
        split at hw
        · exact (waitWhile_keeps _ _ acts s s2 acts2 hkeep ⟨hat, hc⟩ hw).1
        · split at hw
          · exact (waitWhile_keeps _ _ acts s s2 acts2 hkeep ⟨hat, hc⟩ hw).1
          · simp only [Option.some.injEq, Prod.mk.injEq] at hw
            obtain ⟨rfl, -⟩ := hw
            exact ⟨hat, hc⟩
      simp only [hP.1, hP.2, Bool.and_self, if_true] at h
      exact canonWait_exit _ _ _ _ _ _ _ h
  constructor
  · intro s1 acts1 reqs h
    rcases key s1 acts1 reqs h with h1 | h1
    · exact ⟨fun ho => by rw [h1] at ho; simp at ho, fun _ => h1⟩
    · exact ⟨fun _ => h1, fun hn => absurd h1 hn⟩
  · intro r h ho
    unfold JsFile.read at h
    split at h
    · simp at h
    · rename_i s1 acts1 reqs hw
      have hk := key s1 acts1 reqs hw
      simp only [drain_eq] at h
      have hstate : r.state = { s1 with in_buf_ := s1.in_buf_.drop count } ∧
          r.data = s1.in_buf_.take count := by
        split at h <;>
          (simp only [Option.some.injEq] at h
           subst h
           exact ⟨rfl, rfl⟩)
      rw [hstate.1, hstate.2]
      simp only [List.take_append_drop]
      rw [hstate.1] at ho
      rcases hk with hk | hk
      · have : s1.is_open = true := ho
        rw [hk] at this
        simp at this
      · exact hk

/-- Witness for C19: a canonical-mode read on an open terminal with an empty
buffer is woken by `"ab"`, keeps waiting, and returns `"ab\n"` only after the
`'\r'` (stored as `'\n'`) has arrived. -/
theorem canonical_read_needs_line_witness :
    (JsFile.read 16 demoLineActs demoTtyEmpty).map (fun r => (r.ret, r.data)) =
      some (0, [97, 98, 10]) ∧
    NL ∈ ([97, 98, 10] : List CChar) ++ demoTtyEmpty.in_buf_ := by
  have hkeep : ∀ a ∈ demoLineActs, ∀ t : JsFile,
      (t.isatty = true ∧ testFlag t.tio_.c_lflag ICANON = true) →
      ((a t).isatty = true ∧ testFlag (a t).tio_.c_lflag ICANON = true) := by
    intro a ha t ht
    simp only [demoLineActs, List.mem_cons, List.mem_singleton, List.not_mem_nil,
      or_false] at ha
    rcases ha with rfl | rfl | rfl
    · obtain ⟨h1, h2⟩ := OnRead_frame [97, 98] t
      simp only [h1, h2]
      exact ht
    · exact ht
    · obtain ⟨h1, h2⟩ := OnRead_frame [13] t
      simp only [h1, h2]
      exact ht
  have h : JsFile.read 16 demoLineActs demoTtyEmpty = some
      { ret := 0, nread := 3, data := [97, 98, 10],
        state := { demoTtyEmpty with is_read_ready_ := true, on_read_call_count_ := 2 },
        requests := [16, 1] } := by decide
  have h2 := (canonical_read_needs_line 16 demoLineActs demoTtyEmpty (by decide) (by decide)
    hkeep).2 _ h (by decide)
  rw [h]
  exact ⟨by decide, h2⟩

/-- Claim C20 (address validation in `connect`): `connect` returns -1 with
`errno = EINVAL` and without calling `sock_connect` if and only if the family
is none of `AF_INET`, `AF_INET6`, `AF_UNIX`, or it is `AF_INET6` and
`sin6_flowinfo` or `sin6_scope_id` is non-zero; in every other case it calls
`sock_connect` exactly once, with the given descriptor, the family as domain,
the address bytes of the family's view and as port `ntohs` of the stored port
for `AF_INET` and `AF_INET6` and the size of `sun_path` for `AF_UNIX`, returns
the result of that call unchanged and does not touch `errno`. -/
theorem connect_validates (sc : SockConnectCall → Int) (sock : Int) (addr : SockAddr) :
    (((connect sc sock addr).ret = -1 ∧ (connect sc sock addr).errno = some EINVAL ∧
        (connect sc sock addr).calls = []) ↔ addr.rejected) ∧
    (¬ addr.rejected →
      ∃ call, (connect sc sock addr).calls = [call] ∧
        (connect sc sock addr).ret = sc call ∧ (connect sc sock addr).errno = none ∧
        call.sock = sock ∧ call.domain = (addr.sa_family : Int) ∧
        (addr.sa_family = AF_INET →
          call.port = ntohs addr.sin_port ∧ call.addr = addr.sin_addr) ∧
        (addr.sa_family = AF_INET6 →
          call.port = ntohs addr.sin6_port ∧ call.addr = addr.sin6_addr) ∧
        (addr.sa_family = AF_UNIX →
          call.port = SUN_PATH_SIZE ∧ call.addr = addr.sun_path)) := by
  have hn : ∀ x, ntohs x % 65536 = ntohs x := by
    intro x
    unfold ntohs
    omega
  have h46 : AF_INET ≠ AF_INET6 := by decide
  have h4u : AF_INET ≠ AF_UNIX := by decide
  have h6u : AF_INET6 ≠ AF_UNIX := by decide
  by_cases h4 : addr.sa_family = AF_INET
  · have hrej : ¬ addr.rejected := by
      simp [SockAddr.rejected, h4, h46]
    have hc : connect sc sock addr =
        { ret := sc { sock := sock, domain := (addr.sa_family : Int), addr := addr.sin_addr,
                      port := ntohs addr.sin_port },
          errno := none,
          calls := [{ sock := sock, domain := (addr.sa_family : Int), addr := addr.sin_addr,
                      port := ntohs addr.sin_port }] } := by
      simp [connect, h4, hn]
    rw [hc]
    refine ⟨⟨fun h => by simp at h, fun h => absurd h hrej⟩, fun _ => ⟨_, rfl, rfl, rfl, rfl, rfl,
      fun _ => ⟨rfl, rfl⟩, fun h => absurd (h4.symm.trans h) h46,
      fun h => absurd (h4.symm.trans h) h4u⟩⟩
  · by_cases h6 : addr.sa_family = AF_INET6
    · by_cases hf : addr.sin6_flowinfo = 0 ∧ addr.sin6_scope_id = 0
      · have hrej : ¬ addr.rejected := by
          simp [SockAddr.rejected, h6, hf.1, hf.2]
        have hc : connect sc sock addr =
            { ret := sc { sock := sock, domain := (addr.sa_family : Int),
                          addr := addr.sin6_addr, port := ntohs addr.sin6_port },
              errno := none,
              calls := [{ sock := sock, domain := (addr.sa_family : Int),
                          addr := addr.sin6_addr, port := ntohs addr.sin6_port }] } := by
          simp [connect, h6, hf.1, hf.2, hn, h46.symm]
        rw [hc]
        refine ⟨⟨fun h => by simp at h, fun h => absurd h hrej⟩, fun _ => ⟨_, rfl, rfl, rfl,
          rfl, rfl, fun h => absurd h h4, fun _ => ⟨rfl, rfl⟩,
          fun h => absurd (h6.symm.trans h) h6u⟩⟩
      · have hrej : addr.rejected := by
          right
          refine ⟨h6, ?_⟩
          by_contra hc
          simp only [not_or, not_not] at hc
          exact hf hc
        have hc : connect sc sock addr = { ret := -1, errno := some EINVAL, calls := [] } := by
          by_cases hfl : addr.sin6_flowinfo = 0
          · have hsc : addr.sin6_scope_id ≠ 0 := fun h => hf ⟨hfl, h⟩
            simp [connect, h6, hfl, hsc, h46.symm]
          · simp [connect, h6, hfl, h46.symm]
        rw [hc]
        exact ⟨⟨fun _ => hrej, fun _ => ⟨rfl, rfl, rfl⟩⟩, fun h => absurd hrej h⟩
    · by_cases hu : addr.sa_family = AF_UNIX
      · have hrej : ¬ addr.rejected := by
          simp [SockAddr.rejected, hu, h6u.symm]
        have hc : connect sc sock addr =
            { ret := sc { sock := sock, domain := (addr.sa_family : Int),
                          addr := addr.sun_path, port := SUN_PATH_SIZE },
              errno := none,
              calls := [{ sock := sock, domain := (addr.sa_family : Int),
                          addr := addr.sun_path, port := SUN_PATH_SIZE }] } := by
          have hs : SUN_PATH_SIZE % 65536 = SUN_PATH_SIZE := by decide
          simp [connect, hu, hs, h4u.symm, h6u.symm]
        rw [hc]
        refine ⟨⟨fun h => by simp at h, fun h => absurd h hrej⟩, fun _ => ⟨_, rfl, rfl, rfl,
          rfl, rfl, fun h => absurd h h4, fun h => absurd h h6, fun _ => ⟨rfl, rfl⟩⟩⟩
      · have hrej : addr.rejected := Or.inl ⟨h4, h6, hu⟩
        have hc : connect sc sock addr = { ret := -1, errno := some EINVAL, calls := [] } := by
          simp [connect, h4, h6, hu]
        rw [hc]
        exact ⟨⟨fun _ => hrej, fun _ => ⟨rfl, rfl, rfl⟩⟩, fun h => absurd hrej h⟩

/-- Witness for C20: the IPv4 example reaches `sock_connect` with port 22 and
its result 7 is returned; the scoped IPv6 example is rejected with `EINVAL`. -/
theorem connect_validates_witness :
    connect (fun _ => 7) 4 demoAddr4 =
      { ret := 7, errno := none,
        calls := [{ sock := 4, domain := 1, addr := [127, 0, 0, 1], port := 22 }] } ∧
    (connect (fun _ => 7) 4 demoAddr6Scoped).ret = -1 ∧
    (connect (fun _ => 7) 4 demoAddr6Scoped).errno = some EINVAL ∧
    (connect (fun _ => 7) 4 demoAddr6Scoped).calls = [] := by
  have h := ((connect_validates (fun _ => 7) 4 demoAddr6Scoped).1).2
    (Or.inr ⟨rfl, Or.inr (by decide)⟩)
  exact ⟨by decide, h⟩

/-- Claim C21 (completed lines are immutable under arriving input): for every
terminal-attribute setting, every stream (terminal or not), every input buffer
and every delivered byte string `d`, the part of the input buffer up to and
including its last `'\n'` is an initial part of the input buffer after
`OnRead d`; the number of `'\n'` in the buffer does not decrease; and one
iteration of the loop of `OnRead` either leaves the buffer as it is, appends
one byte, or removes the last byte of a buffer that is not empty and does not
end in `'\n'`, so an erase only removes a byte buffered after the last
`'\n'`. -/
theorem completed_lines_immutable (d : List CChar) (s : JsFile) :
    completedLines s.in_buf_ <+: (OnRead d s).1.in_buf_ ∧
    s.in_buf_.count NL ≤ (OnRead d s).1.in_buf_.count NL ∧
    (∀ (st : JsFile × Log) (c : CChar),
      (OnRead_char st c).1.in_buf_ = st.1.in_buf_ ∨
      (∃ c1, (OnRead_char st c).1.in_buf_ = st.1.in_buf_ ++ [c1]) ∨
      (st.1.in_buf_ ≠ [] ∧ st.1.in_buf_.getLast? ≠ some NL ∧
        (OnRead_char st c).1.in_buf_ = st.1.in_buf_.dropLast)) := by
  have hp : completedLines s.in_buf_ <+: s.in_buf_ := by
    unfold completedLines
    exact List.rdropWhile_prefix _ _
  have h1 : completedLines s.in_buf_ <+: (OnRead d s).1.in_buf_ := by
    unfold OnRead
    simp only
    split
    · exact OnRead_fold_keeps _ (completedLines_ends _) d (s, []) hp
    · exact hp.trans (List.prefix_append _ _)
  refine ⟨h1, ?_, OnRead_char_shape⟩
  rw [← completedLines_count s.in_buf_]
  exact h1.sublist.count_le NL

end SshClient
